import Mathlib

/-!
Verification of the OpenManus agent-execution core against its specification.

The definitions below are a shallow embedding of the Python sources:
  - `app/schema.py`        (Message, Memory, AgentState)
  - `app/agent/base.py`    (BaseAgent: run loop, state context, stuck detection)
  - `app/tool/base.py`     (ToolResult and its combination operator)
  - `app/tool/planning.py` (PlanningTool: create/update/mark_step/format)
  - `app/agent/planning.py`(text-based step locator)
  - `app/flow/planning.py` (structured step locator, step execution)

Python-specific semantics (truthiness, negative-index slicing, `or`) are
modelled by the `py*` helpers; each definition notes the source lines it
translates.
-/

namespace OpenManus

/-! ## Python semantics helpers -/

/-- Python truthiness of an `Optional[str]`: `None` and `""` are falsy. -/
def pyTruthyOptStr : Option String → Bool
  | none => false
  | some s => s != ""

/-- Python truthiness of an `Optional[int]`: `None` and `0` are falsy. -/
def pyTruthyOptInt : Option Int → Bool
  | none => false
  | some i => i != 0

/-- Python `a or b` on `Optional[str]` values. -/
def pyOrOpt (a b : Option String) : Option String :=
  if pyTruthyOptStr a then a else b

/-- Python slice `l[-k:]` for a non-negative `k`.  For `k = 0` the slice is
`l[0:]`, i.e. the whole list (`-0 == 0`); for `k > 0` the start index is
`len(l) - k` clamped at `0`, which `Nat` subtraction models exactly. -/
def pySliceLast {α : Type} (l : List α) (k : Nat) : List α :=
  if k = 0 then l else l.drop (l.length - k)

/-- Python `"\n".join(l)`. -/
def pyJoin (sep : String) : List String → String
  | [] => ""
  | [x] => x
  | x :: y :: xs => x ++ sep ++ pyJoin sep (y :: xs)

/-! ## Data model (`app/schema.py`) -/

/-- `Role` enum from `app/schema.py`. -/
inductive Role where
  | system
  | user
  | assistant
  | tool
deriving DecidableEq, Repr

/-- `AgentState` enum from `app/schema.py`. -/
inductive AgentState where
  | IDLE
  | RUNNING
  | FINISHED
  | ERROR
deriving DecidableEq, Repr

/-- `Function` model from `app/schema.py`. -/
structure FunctionCall where
  name : String
  arguments : String
deriving DecidableEq, Repr

/-- `ToolCall` model from `app/schema.py`. -/
structure ToolCall where
  id : String
  type : String := "function"
  function : FunctionCall
deriving DecidableEq, Repr

/-- `Message` model from `app/schema.py`. -/
structure Message where
  role : Role
  content : Option String := none
  tool_calls : Option (List ToolCall) := none
  name : Option String := none
  tool_call_id : Option String := none
deriving DecidableEq, Repr

/-- `Message.user_message` (`app/schema.py`). -/
def Message.user_message (content : String) : Message :=
  { role := Role.user, content := some content }

/-- `Message.system_message` (`app/schema.py`). -/
def Message.system_message (content : String) : Message :=
  { role := Role.system, content := some content }

/-- `Message.assistant_message` (`app/schema.py`). -/
def Message.assistant_message (content : Option String := none) : Message :=
  { role := Role.assistant, content := content }

/-- `Message.tool_message` (`app/schema.py`). -/
def Message.tool_message (content : String) (name : String) (tool_call_id : String) : Message :=
  { role := Role.tool, content := some content, name := some name,
    tool_call_id := some tool_call_id }

/-- `Memory` model from `app/schema.py` (messages list plus capacity). -/
structure Memory where
  messages : List Message := []
  max_messages : Nat := 100
deriving DecidableEq, Repr

/-- `Memory.add_message` (`app/schema.py` lines 215-228): append, then if the
length exceeds `max_messages` keep the Python slice `messages[-max_messages:]`. -/
def Memory.add_message (mem : Memory) (message : Message) : Memory :=
  let msgs := mem.messages ++ [message]
  if msgs.length > mem.max_messages then
    { mem with messages := pySliceLast msgs mem.max_messages }
  else
    { mem with messages := msgs }

/-- `Memory.add_messages` (`app/schema.py` lines 230-238): a plain `extend`,
with no capacity enforcement. -/
def Memory.add_messages (mem : Memory) (new : List Message) : Memory :=
  { mem with messages := mem.messages ++ new }

/-- `Memory.clear` (`app/schema.py` lines 240-248). -/
def Memory.clear (mem : Memory) : Memory :=
  { mem with messages := [] }

/-- A call against the `Memory` API, used to quantify over call sequences. -/
inductive MemOp where
  | addOne (m : Message)
  | addMany (ms : List Message)
  | clearAll
deriving DecidableEq, Repr

/-- Whether the operation is an `add_messages` call. -/
def MemOp.isAddMany : MemOp → Bool
  | .addMany _ => true
  | _ => false

/-- Interpret one `MemOp` against a `Memory`. -/
def Memory.applyOp (mem : Memory) : MemOp → Memory
  | .addOne m => mem.add_message m
  | .addMany ms => mem.add_messages ms
  | .clearAll => mem.clear

/-- Interpret a sequence of `MemOp`s left to right. -/
def Memory.applyOps (mem : Memory) (ops : List MemOp) : Memory :=
  ops.foldl Memory.applyOp mem

/-- Fold a list of messages through single `add_message` calls. -/
def Memory.addAll (mem : Memory) (msgs : List Message) : Memory :=
  msgs.foldl Memory.add_message mem

/-! ## Memory lemmas -/

theorem Memory.add_message_max (mem : Memory) (m : Message) :
    (mem.add_message m).max_messages = mem.max_messages := by
  unfold Memory.add_message
  dsimp only
  split <;> rfl

theorem pySliceLast_eq_drop {α : Type} (l : List α) (k : Nat) (hk : 1 ≤ k) :
    pySliceLast l k = l.drop (l.length - k) := by
  unfold pySliceLast
  rw [if_neg (by omega)]

theorem Memory.add_message_messages (mem : Memory) (m : Message)
    (hcap : 1 ≤ mem.max_messages) :
    (mem.add_message m).messages =
      (mem.messages ++ [m]).drop ((mem.messages.length + 1) - mem.max_messages) := by
  unfold Memory.add_message
  dsimp only
  split
  · rename_i h
    simp only [List.length_append, List.length_cons, List.length_nil] at h
    rw [pySliceLast_eq_drop _ _ hcap]
    simp [List.length_append]
  · rename_i h
    simp only [List.length_append, List.length_cons, List.length_nil] at h
    have : mem.messages.length + 1 - mem.max_messages = 0 := by omega
    simp [this]

theorem drop_append_drop {α : Type} (a b : List α) (i j : Nat) (h : i ≤ a.length) :
    (a.drop i ++ b).drop j = (a ++ b).drop (i + j) := by
  rw [List.drop_append_eq_append_drop, List.drop_append_eq_append_drop,
    List.drop_drop, List.length_drop]
  have hidx : j - (a.length - i) = i + j - a.length := by omega
  rw [hidx]

theorem Memory.addAll_messages (msgs : List Message) (mem : Memory)
    (hcap : 1 ≤ mem.max_messages)
    (hlen : mem.messages.length ≤ mem.max_messages) :
    (mem.addAll msgs).messages =
      (mem.messages ++ msgs).drop ((mem.messages.length + msgs.length) - mem.max_messages) ∧
    (mem.addAll msgs).max_messages = mem.max_messages := by
  induction msgs generalizing mem with
  | nil =>
    have h0 : mem.messages.length - mem.max_messages = 0 := by omega
    constructor
    · show mem.messages = _
      simp [h0]
    · rfl
  | cons m rest ih =>
    have hmax := Memory.add_message_max mem m
    have hmsg := Memory.add_message_messages mem m hcap
    have hxlen : (mem.messages ++ [m]).length = mem.messages.length + 1 := by simp
    have hlen' : (mem.add_message m).messages.length ≤ (mem.add_message m).max_messages := by
      rw [hmsg, hmax, List.length_drop, hxlen]
      omega
    have hcap' : 1 ≤ (mem.add_message m).max_messages := by rw [hmax]; exact hcap
    obtain ⟨ih1, ih2⟩ := ih (mem.add_message m) hcap' hlen'
    have hstep : mem.addAll (m :: rest) = (mem.add_message m).addAll rest := rfl
    refine ⟨?_, by rw [hstep, ih2, hmax]⟩
    rw [hstep, ih1, hmsg, hmax, List.length_drop, hxlen]
    have hassoc : mem.messages ++ m :: rest = (mem.messages ++ [m]) ++ rest := by simp
    rw [hassoc, drop_append_drop _ _ _ _ (by rw [hxlen]; omega)]
    congr 1
    simp only [List.length_cons]
    omega

/-- C6 amended helper: `add_message` and `clear` preserve the capacity bound. -/
theorem Memory.applyOps_bound (ops : List MemOp) (mem : Memory)
    (hcap : 1 ≤ mem.max_messages)
    (hlen : mem.messages.length ≤ mem.max_messages)
    (hops : ∀ op ∈ ops, op.isAddMany = false) :
    (mem.applyOps ops).messages.length ≤ (mem.applyOps ops).max_messages ∧
    (mem.applyOps ops).max_messages = mem.max_messages := by
  induction ops generalizing mem with
  | nil => exact ⟨hlen, rfl⟩
  | cons op rest ih =>
    have hrest : ∀ o ∈ rest, o.isAddMany = false := fun o ho => hops o (by simp [ho])
    match op with
    | .addOne m =>
      have hmax := Memory.add_message_max mem m
      have hmsg := Memory.add_message_messages mem m hcap
      have hxlen : (mem.messages ++ [m]).length = mem.messages.length + 1 := by simp
      have hcap' : 1 ≤ (mem.add_message m).max_messages := by rw [hmax]; exact hcap
      have hlen' : (mem.add_message m).messages.length ≤ (mem.add_message m).max_messages := by
        rw [hmsg, hmax, List.length_drop, hxlen]
        omega
      have h := ih (mem.add_message m) hcap' hlen' hrest
      exact ⟨h.1, h.2.trans hmax⟩
    | .addMany ms => exact absurd (hops (.addMany ms) (by simp)) (by simp [MemOp.isAddMany])
    | .clearAll =>
      have h := ih mem.clear hcap (by simp [Memory.clear]) hrest
      exact ⟨h.1, h.2⟩

/-! ## Claim C6

The claim says every Memory operation — `add_message`, `add_messages` and
`clear` — preserves the capacity bound.  In the source, `add_messages`
(`app/schema.py` lines 230-238) is a bare `extend` with no trimming, so a
single `add_messages` call pushes the store past its capacity. -/

/-- C6 counterexample: on a Memory with capacity 1, one `add_messages` call
with two messages leaves 2 > 1 messages stored, so the claimed invariant
"after any sequence of add_message, add_messages, and clear calls the number
of stored messages is at most N" is false. -/
theorem memory_capacity_claim_false :
    ¬ ((Memory.applyOps { messages := [], max_messages := 1 }
        [MemOp.addMany [Message.user_message "x", Message.user_message "y"]]).messages.length
      ≤ 1) := by
  decide

/-- C6 (amended): after any sequence of `add_message` and `clear` calls on a
Memory with capacity N ≥ 1 that starts within capacity, at most N messages are
stored; `add_messages` performs no eviction and is excluded. -/
theorem memory_capacity_bound_without_add_messages (ops : List MemOp) (mem : Memory)
    (hcap : 1 ≤ mem.max_messages)
    (hlen : mem.messages.length ≤ mem.max_messages)
    (hops : ∀ op ∈ ops, op.isAddMany = false) :
    (mem.applyOps ops).messages.length ≤ mem.max_messages := by
  have h := Memory.applyOps_bound ops mem hcap hlen hops
  rw [← h.2]
  exact h.1

/-- C6 witness: the amended theorem applied to a concrete call sequence. -/
theorem memory_capacity_bound_without_add_messages_witness :
    (Memory.applyOps { messages := [], max_messages := 2 }
      [MemOp.addOne (Message.user_message "a"), MemOp.clearAll,
       MemOp.addOne (Message.user_message "b"), MemOp.addOne (Message.user_message "c"),
       MemOp.addOne (Message.user_message "d")]).messages.length ≤ 2 :=
  memory_capacity_bound_without_add_messages _ _ (by decide) (by decide) (by decide)

/-! ## Claim C7

`add_message` trims with the Python slice `messages[-max_messages:]`.  For
capacity 0 that slice is `messages[0:]` — the whole list — so a Memory with
capacity 0 retains every message instead of `min(N, 0) = 0`. -/

/-- C7 counterexample: with capacity C = 0, one `add_message` call leaves 1
message stored, not `min(1, 0) = 0`, so the claim fails for capacity 0. -/
theorem memory_fifo_claim_false_at_capacity_zero :
    ¬ (((Memory.mk [] 0).add_message (Message.user_message "x")).messages.length
      = min 1 0) := by
  decide

/-- C7 (amended): for every capacity C ≥ 1, after N single `add_message` calls
on an initially empty Memory, exactly `min N C` messages are stored, namely the
last `min N C` messages added, in their original order (FIFO eviction). -/
theorem memory_add_message_fifo (msgs : List Message) (C : Nat) (hC : 1 ≤ C) :
    ((Memory.mk [] C).addAll msgs).messages = msgs.drop (msgs.length - C) ∧
    ((Memory.mk [] C).addAll msgs).messages.length = min msgs.length C := by
  have h := Memory.addAll_messages msgs (Memory.mk [] C) hC (by simp)
  have h1 : ((Memory.mk [] C).addAll msgs).messages = msgs.drop (msgs.length - C) := by
    rw [h.1]; simp
  refine ⟨h1, ?_⟩
  rw [h1, List.length_drop]
  omega

/-- C7 witness: capacity 2, three messages added — the last two remain. -/
theorem memory_add_message_fifo_witness :
    ((Memory.mk [] 2).addAll
        [Message.user_message "a", Message.user_message "b", Message.user_message "c"]).messages
      = [Message.user_message "b", Message.user_message "c"] ∧
    ((Memory.mk [] 2).addAll
        [Message.user_message "a", Message.user_message "b", Message.user_message "c"]).messages.length
      = min 3 2 := by
  have h := memory_add_message_fifo
    [Message.user_message "a", Message.user_message "b", Message.user_message "c"] 2 (by decide)
  exact ⟨h.1.trans (by decide), h.2⟩

/-! ## ToolResult (`app/tool/base.py` lines 42-83) -/

/-- `ToolResult` model.  `output` is `Any` in Python; every use relevant to
the spec treats it as optional text, so it is embedded as `Option String`
like the other fields. -/
structure ToolResult where
  output : Option String := none
  error : Option String := none
  base64_image : Option String := none
  system : Option String := none
deriving DecidableEq, Repr

/-- `ToolResult.__bool__`: `any(getattr(self, field) for field in self.__fields__)`,
fields iterated in declaration order. -/
def ToolResult.toBool (r : ToolResult) : Bool :=
  pyTruthyOptStr r.output || pyTruthyOptStr r.error ||
    pyTruthyOptStr r.base64_image || pyTruthyOptStr r.system

/-- `combine_fields` from `ToolResult.__add__`: if both sides are truthy,
concatenate when allowed and raise `ValueError` otherwise; else Python
`field or other_field`. -/
def combine_fields (field other : Option String) (concatenate : Bool) : Except String (Option String) :=
  if pyTruthyOptStr field && pyTruthyOptStr other then
    if concatenate then Except.ok (some (field.getD "" ++ other.getD ""))
    else Except.error "Cannot combine tool results"
  else Except.ok (pyOrOpt field other)

/-- `ToolResult.__add__`: field-wise combination, `base64_image` being the
only non-concatenable field, evaluated in field order. -/
def ToolResult.add (r1 r2 : ToolResult) : Except String ToolResult := do
  let o ← combine_fields r1.output r2.output true
  let e ← combine_fields r1.error r2.error true
  let b ← combine_fields r1.base64_image r2.base64_image false
  let s ← combine_fields r1.system r2.system true
  Except.ok { output := o, error := e, base64_image := b, system := s }

theorem combine_fields_concat (f o : Option String) :
    combine_fields f o true =
      Except.ok (if pyTruthyOptStr f && pyTruthyOptStr o then
        some (f.getD "" ++ o.getD "") else pyOrOpt f o) := by
  unfold combine_fields
  by_cases h : (pyTruthyOptStr f && pyTruthyOptStr o) = true <;> simp [h]

theorem combine_fields_noconcat (f o : Option String) :
    combine_fields f o false =
      if pyTruthyOptStr f && pyTruthyOptStr o then
        Except.error "Cannot combine tool results"
      else Except.ok (pyOrOpt f o) := by
  unfold combine_fields
  by_cases h : (pyTruthyOptStr f && pyTruthyOptStr o) = true <;> simp [h]

/-! ## Claim C9 -/

/-- C9: a ToolResult is falsy exactly when all of its fields are empty; `+`
concatenates a field set on both sides (output, error, and the concatenable
system field), keeps the non-empty side when only one side is set (in
particular, the non-concatenable `base64_image` is replaced, not
concatenated), and fails — `ValueError` — exactly when both sides set the
non-concatenable `base64_image` field. -/
theorem tool_result_falsy_and_add (r r1 r2 : ToolResult) :
    (r.toBool = false ↔
      pyTruthyOptStr r.output = false ∧ pyTruthyOptStr r.error = false ∧
      pyTruthyOptStr r.base64_image = false ∧ pyTruthyOptStr r.system = false) ∧
    (r1.add r2 =
      if pyTruthyOptStr r1.base64_image && pyTruthyOptStr r2.base64_image then
        Except.error "Cannot combine tool results"
      else Except.ok {
        output := if pyTruthyOptStr r1.output && pyTruthyOptStr r2.output then
            some (r1.output.getD "" ++ r2.output.getD "") else pyOrOpt r1.output r2.output,
        error := if pyTruthyOptStr r1.error && pyTruthyOptStr r2.error then
            some (r1.error.getD "" ++ r2.error.getD "") else pyOrOpt r1.error r2.error,
        base64_image := pyOrOpt r1.base64_image r2.base64_image,
        system := if pyTruthyOptStr r1.system && pyTruthyOptStr r2.system then
            some (r1.system.getD "" ++ r2.system.getD "") else pyOrOpt r1.system r2.system }) := by
  constructor
  · simp [ToolResult.toBool, and_assoc]
  · show (do
      let o ← combine_fields r1.output r2.output true
      let e ← combine_fields r1.error r2.error true
      let b ← combine_fields r1.base64_image r2.base64_image false
      let s ← combine_fields r1.system r2.system true
      Except.ok (ToolResult.mk o e b s)) = _
    rw [combine_fields_concat, combine_fields_concat, combine_fields_concat,
      combine_fields_noconcat]
    by_cases hb : (pyTruthyOptStr r1.base64_image && pyTruthyOptStr r2.base64_image) = true <;>
      simp [hb, Except.instMonad, Except.bind]

/-! ## Agent state machine (`app/agent/base.py`) -/

/-- The mutable fields of `BaseAgent` that the run loop touches. -/
structure BaseAgent where
  state : AgentState := AgentState.IDLE
  current_step : Nat := 0
  max_steps : Nat := 10
  duplicate_threshold : Nat := 2
  memory : Memory := {}
deriving DecidableEq, Repr

/-- `BaseAgent.is_stuck` (`app/agent/base.py` lines 262-284): false when fewer
messages than the threshold; otherwise compare the contents of the Python
slice `messages[-duplicate_threshold:]` against its first element.  Python's
`all` over an empty generator is `True` without ever indexing `recent[0]`. -/
def BaseAgent.is_stuck (a : BaseAgent) : Bool :=
  if a.memory.messages.length < a.duplicate_threshold then false
  else
    match pySliceLast a.memory.messages a.duplicate_threshold with
    | [] => true
    | m0 :: rest => rest.all (fun m => m.content == m0.content)

/-- `BaseAgent.handle_stuck_state` (`app/agent/base.py` lines 244-260). -/
def BaseAgent.handle_stuck_state (a : BaseAgent) : BaseAgent :=
  { a with memory := a.memory.add_message (Message.system_message
      "You seem to be stuck in a loop. Please try a different approach.") }

/-- The abstract `step()` of a concrete agent: it may mutate the agent and
either return a result string or raise an exception. -/
def StepFun : Type := BaseAgent → BaseAgent × Except String String

/-- Render an `AgentState` the way Python's f-string does. -/
def AgentState.toStr : AgentState → String
  | AgentState.IDLE => "AgentState.IDLE"
  | AgentState.RUNNING => "AgentState.RUNNING"
  | AgentState.FINISHED => "AgentState.FINISHED"
  | AgentState.ERROR => "AgentState.ERROR"

/-- The `while` loop of `BaseAgent.run` (`app/agent/base.py` lines 207-219),
fuel-indexed for termination.  `Sum.inl` is a propagating `step()` exception
(the raw agent as `step` left it), `Sum.inr` a normal loop exit with the
accumulated results. -/
def runLoop (stepF : StepFun) : Nat → BaseAgent → List String →
    Option ((String × BaseAgent) ⊕ (BaseAgent × List String))
  | 0, _, _ => none
  | fuel + 1, a, results =>
    if a.current_step < a.max_steps ∧ a.state ≠ AgentState.FINISHED then
      let a1 := { a with current_step := a.current_step + 1 }
      match stepF a1 with
      | (a2, Except.error e) => some (Sum.inl (e, a2))
      | (a2, Except.ok step_result) =>
        let a3 := if a2.is_stuck then a2.handle_stuck_state else a2
        runLoop stepF fuel a3
          (results ++ ["Step " ++ Nat.repr a3.current_step ++ ": " ++ step_result])
    else
      some (Sum.inr (a, results))

/-- Lines 203-204 of `run`: `if request: self.update_memory("user", request)`. -/
def BaseAgent.withRequest (a : BaseAgent) (request : Option String) : BaseAgent :=
  match request with
  | some req =>
    if req ≠ "" then
      { a with memory := a.memory.add_message (Message.user_message req) }
    else a
  | none => a

/-- Lines 221-224 of `run`: after the loop, a max-steps exit resets the step
counter, moves to IDLE, and appends the termination note. -/
def runExitResult (aExit : BaseAgent) (results : List String) : BaseAgent × List String :=
  if aExit.current_step ≥ aExit.max_steps then
    ({ aExit with current_step := 0, state := AgentState.IDLE },
      results ++ ["Terminated: Reached max steps (" ++ Nat.repr aExit.max_steps ++ ")"])
  else (aExit, results)

/-- `BaseAgent.run` (`app/agent/base.py` lines 178-226).  The guarded state
context (`state_context`, lines 104-137) saves `previous_state`, sets RUNNING,
and on an exception assigns ERROR in the handler — which the `finally` clause
then overwrites with `previous_state` before the exception reaches the
caller.  `none` marks divergence (only possible when `step()` grows the step
counter bound, which no concrete agent does). -/
def BaseAgent.run (a : BaseAgent) (stepF : StepFun) (request : Option String) :
    Option (Except (String × BaseAgent) (BaseAgent × String)) :=
  if a.state ≠ AgentState.IDLE then
    some (Except.error ("Cannot run agent from state: " ++ a.state.toStr, a))
  else
    match runLoop stepF ((a.withRequest request).max_steps + 1)
        { a.withRequest request with state := AgentState.RUNNING } [] with
    | none => none
    | some (Sum.inl (e, a2)) =>
      some (Except.error (e,
        { { a2 with state := AgentState.ERROR } with
            state := (a.withRequest request).state }))
    | some (Sum.inr (aExit, results)) =>
      some (Except.ok
        ({ (runExitResult aExit results).1 with state := (a.withRequest request).state },
          if (runExitResult aExit results).2 ≠ [] then pyJoin "\n" (runExitResult aExit results).2
          else "No steps executed"))

/-! ## Agent helper lemmas -/

theorem BaseAgent.withRequest_fields (a : BaseAgent) (req : Option String) :
    (a.withRequest req).state = a.state ∧
    (a.withRequest req).current_step = a.current_step ∧
    (a.withRequest req).max_steps = a.max_steps := by
  unfold BaseAgent.withRequest
  match req with
  | none => exact ⟨rfl, rfl, rfl⟩
  | some r =>
    dsimp only
    split <;> exact ⟨rfl, rfl, rfl⟩

theorem runExitResult_fst_max (aExit : BaseAgent) (results : List String)
    (h : aExit.max_steps ≤ aExit.current_step) :
    (runExitResult aExit results).1 =
      { aExit with current_step := 0, state := AgentState.IDLE } := by
  unfold runExitResult
  rw [if_pos h]

theorem BaseAgent.stuck_branch_fields (x : BaseAgent) :
    (if x.is_stuck then x.handle_stuck_state else x).current_step = x.current_step ∧
    (if x.is_stuck then x.handle_stuck_state else x).max_steps = x.max_steps ∧
    (if x.is_stuck then x.handle_stuck_state else x).state = x.state := by
  split <;> exact ⟨rfl, rfl, rfl⟩

/-- Totality and exit condition of the run loop: with a `step()` that never
raises and does not touch the step counters, the loop exits within the
provided fuel, and at exit the loop guard is false. -/
theorem runLoop_total (stepF : StepFun)
    (hframe : ∀ s, (stepF s).1.current_step = s.current_step ∧
      (stepF s).1.max_steps = s.max_steps)
    (hok : ∀ s, ∃ s' r, stepF s = (s', Except.ok r)) :
    ∀ (fuel : Nat) (a : BaseAgent) (results : List String),
      a.max_steps + 1 ≤ a.current_step + fuel → 1 ≤ fuel →
      ∃ aExit res, runLoop stepF fuel a results = some (Sum.inr (aExit, res)) ∧
        ¬(aExit.current_step < aExit.max_steps ∧ aExit.state ≠ AgentState.FINISHED) := by
  intro fuel
  induction fuel with
  | zero => intro a results h1 h2; omega
  | succ f ih =>
    intro a results h1 h2
    by_cases hg : a.current_step < a.max_steps ∧ a.state ≠ AgentState.FINISHED
    · obtain ⟨s', r, hs⟩ := hok (BaseAgent.mk a.state (a.current_step + 1)
        a.max_steps a.duplicate_threshold a.memory)
      have hf := hframe (BaseAgent.mk a.state (a.current_step + 1)
        a.max_steps a.duplicate_threshold a.memory)
      rw [hs] at hf
      have hstuck := BaseAgent.stuck_branch_fields s'
      have hcur : (if s'.is_stuck then s'.handle_stuck_state else s').current_step =
          a.current_step + 1 := by rw [hstuck.1]; exact hf.1
      have hmax : (if s'.is_stuck then s'.handle_stuck_state else s').max_steps =
          a.max_steps := by rw [hstuck.2.1]; exact hf.2
      have hfuel1 : (if s'.is_stuck then s'.handle_stuck_state else s').max_steps + 1 ≤
          (if s'.is_stuck then s'.handle_stuck_state else s').current_step + f := by
        rw [hcur, hmax]; omega
      have hfuel2 : 1 ≤ f := by omega
      obtain ⟨aExit, res, heq, hcond⟩ := ih
        (if s'.is_stuck then s'.handle_stuck_state else s')
        (results ++ ["Step " ++
          Nat.repr (if s'.is_stuck then s'.handle_stuck_state else s').current_step
          ++ ": " ++ r]) hfuel1 hfuel2
      refine ⟨aExit, res, ?_, hcond⟩
      rw [runLoop, if_pos hg]
      dsimp only
      rw [hs]
      exact heq
    · refine ⟨a, results, ?_, hg⟩
      rw [runLoop, if_neg hg]

/-! ## Claim C5 -/

/-- C5: for every agent started in IDLE whose `step()` never raises (and, as
for every concrete agent in the repository, never touches the step counters),
`run()` terminates exactly when the loop guard fails — the state has become
FINISHED or `current_step` has reached `max_steps` — and in the `max_steps`
case the returned agent has `current_step = 0` and state IDLE. -/
theorem run_stops_at_finished_or_max (stepF : StepFun) (req : Option String) (a : BaseAgent)
    (hframe : ∀ s, (stepF s).1.current_step = s.current_step ∧
      (stepF s).1.max_steps = s.max_steps)
    (hok : ∀ s, ∃ s' r, stepF s = (s', Except.ok r))
    (hidle : a.state = AgentState.IDLE) :
    ∃ aExit results,
      runLoop stepF ((a.withRequest req).max_steps + 1)
          { a.withRequest req with state := AgentState.RUNNING } [] =
        some (Sum.inr (aExit, results)) ∧
      (aExit.state = AgentState.FINISHED ∨ aExit.max_steps ≤ aExit.current_step) ∧
      ∃ aF out, a.run stepF req = some (Except.ok (aF, out)) ∧
        (aExit.max_steps ≤ aExit.current_step →
          aF.current_step = 0 ∧ aF.state = AgentState.IDLE) := by
  have hw := BaseAgent.withRequest_fields a req
  obtain ⟨aExit, results, heq, hcond⟩ := runLoop_total stepF hframe hok
    ((a.withRequest req).max_steps + 1)
    { a.withRequest req with state := AgentState.RUNNING } []
    (by dsimp only; omega) (by omega)
  refine ⟨aExit, results, heq, ?_, ?_⟩
  · by_cases hfin : aExit.state = AgentState.FINISHED
    · exact Or.inl hfin
    · refine Or.inr ?_
      by_contra hlt
      exact hcond ⟨by omega, hfin⟩
  · rw [BaseAgent.run, if_neg (by simp [hidle]), heq]
    refine ⟨_, _, rfl, fun h => ?_⟩
    have hfst := runExitResult_fst_max aExit results h
    constructor
    · show (runExitResult aExit results).1.current_step = 0
      rw [hfst]
    · show (a.withRequest req).state = AgentState.IDLE
      rw [hw.1, hidle]

/-- Concrete step function that always succeeds and leaves the agent as is. -/
def stepOk : StepFun := fun s => (s, Except.ok "ok")

/-- C5 witness: the theorem applied to the default agent and `stepOk`. -/
theorem run_stops_at_finished_or_max_witness :
    ∃ aExit results,
      runLoop stepOk ((({} : BaseAgent).withRequest none).max_steps + 1)
          { ({} : BaseAgent).withRequest none with state := AgentState.RUNNING } [] =
        some (Sum.inr (aExit, results)) ∧
      (aExit.state = AgentState.FINISHED ∨ aExit.max_steps ≤ aExit.current_step) ∧
      ∃ aF out, ({} : BaseAgent).run stepOk none = some (Except.ok (aF, out)) ∧
        (aExit.max_steps ≤ aExit.current_step →
          aF.current_step = 0 ∧ aF.state = AgentState.IDLE) :=
  run_stops_at_finished_or_max stepOk none {}
    (fun _ => ⟨rfl, rfl⟩) (fun s => ⟨s, "ok", rfl⟩) rfl

/-! ## Claim C2

`state_context` (`app/agent/base.py` lines 104-137) assigns ERROR inside the
exception handler, but its `finally` clause then unconditionally restores
`previous_state`, so the caller of `run()` observes the pre-run state (IDLE),
never ERROR. -/

/-- Concrete step function that always raises. -/
def stepBoom : StepFun := fun s => (s, Except.error "boom")

/-- C2 counterexample: for the default agent (IDLE), a raising `step()` makes
`run()` propagate the exception, but at that moment the agent's state is
IDLE, not ERROR, refuting the claim at this concrete input. -/
theorem run_exception_error_state_claim_false :
    (({} : BaseAgent).run stepBoom none =
      some (Except.error ("boom",
        { state := AgentState.IDLE, current_step := 1, max_steps := 10,
          duplicate_threshold := 2, memory := {} }))) ∧
    AgentState.IDLE ≠ AgentState.ERROR := by
  exact ⟨rfl, by decide⟩

/-- C2 (amended): for every agent started in IDLE whose `step()` raises, the
exception propagates to `run()`'s caller, but at the moment the caller
observes it the agent's state has been restored to IDLE — the ERROR
assignment in the exception handler is immediately overwritten by the
`finally` clause of the state guard. -/
theorem run_exception_restores_idle (stepF : StepFun) (req : Option String) (a : BaseAgent)
    (hidle : a.state = AgentState.IDLE)
    (hlt : a.current_step < a.max_steps)
    (hraise : ∀ s, ∃ s' e, stepF s = (s', Except.error e)) :
    ∃ e a', a.run stepF req = some (Except.error (e, a')) ∧
      a'.state = AgentState.IDLE := by
  have hw := BaseAgent.withRequest_fields a req
  obtain ⟨s', e, hs⟩ := hraise (BaseAgent.mk AgentState.RUNNING
    ((a.withRequest req).current_step + 1) (a.withRequest req).max_steps
    (a.withRequest req).duplicate_threshold (a.withRequest req).memory)
  refine ⟨e, BaseAgent.mk (a.withRequest req).state s'.current_step s'.max_steps
    s'.duplicate_threshold s'.memory, ?_, by dsimp only; rw [hw.1, hidle]⟩
  rw [BaseAgent.run, if_neg (by simp [hidle])]
  have hguard : ({ a.withRequest req with state := AgentState.RUNNING } :
      BaseAgent).current_step < ({ a.withRequest req with
        state := AgentState.RUNNING } : BaseAgent).max_steps ∧
      ({ a.withRequest req with state := AgentState.RUNNING } : BaseAgent).state ≠
        AgentState.FINISHED := by
    refine ⟨?_, show AgentState.RUNNING ≠ AgentState.FINISHED by decide⟩
    show (a.withRequest req).current_step < (a.withRequest req).max_steps
    rw [hw.2.1, hw.2.2]
    exact hlt
  rw [runLoop, if_pos hguard]
  dsimp only
  rw [hs]

/-- C2 amended witness: the amended theorem at the default agent with a
raising step. -/
theorem run_exception_restores_idle_witness :
    ∃ e a', ({} : BaseAgent).run stepBoom none = some (Except.error (e, a')) ∧
      a'.state = AgentState.IDLE :=
  run_exception_restores_idle stepBoom none {} rfl (by decide)
    (fun s => ⟨s, "boom", rfl⟩)

/-! ## Claim C10

`is_stuck` slices with `messages[-duplicate_threshold:]`; for threshold 0 the
slice is the whole message list, so an agent with threshold 0 and two
distinct messages returns `False` even though "the last 0 messages all have
identical content" holds vacuously. -/

/-- Agent with `duplicate_threshold = 0` and two distinct messages. -/
def stuckCexAgent : BaseAgent :=
  { duplicate_threshold := 0,
    memory := { messages := [Message.user_message "a", Message.user_message "b"] } }

/-- C10 counterexample: at `stuckCexAgent` the claimed equivalence — stuck iff
the memory holds at least `duplicate_threshold` messages whose last
`duplicate_threshold` entries have identical content — is false: the right
side holds vacuously (threshold 0) while `is_stuck` returns false. -/
theorem is_stuck_claim_false :
    ¬ (stuckCexAgent.is_stuck = true ↔
      (stuckCexAgent.duplicate_threshold ≤ stuckCexAgent.memory.messages.length ∧
        ∀ m ∈ stuckCexAgent.memory.messages.drop
            (stuckCexAgent.memory.messages.length - stuckCexAgent.duplicate_threshold),
          ∀ m' ∈ stuckCexAgent.memory.messages.drop
            (stuckCexAgent.memory.messages.length - stuckCexAgent.duplicate_threshold),
            m.content = m'.content)) := by
  decide

theorem all_content_eq_iff (m0 : Message) (rest : List Message) :
    (rest.all (fun m => m.content == m0.content) = true) ↔
    (∀ m ∈ m0 :: rest, ∀ m' ∈ m0 :: rest, m.content = m'.content) := by
  rw [List.all_eq_true]
  constructor
  · intro h m hm m' hm'
    have hc : ∀ x ∈ m0 :: rest, x.content = m0.content := by
      intro x hx
      rcases List.mem_cons.mp hx with hx0 | hxr
      · rw [hx0]
      · simpa using h x hxr
    rw [hc m hm, hc m' hm']
  · intro h m hm
    have := h m (List.mem_cons_of_mem _ hm) m0 (List.mem_cons_self _ _)
    simpa using this

/-- C10 (amended): for every agent whose `duplicate_threshold` is at least 1,
`is_stuck()` returns true iff the memory holds at least `duplicate_threshold`
messages and the last `duplicate_threshold` of them have identical content;
in particular it is false below the threshold.  (For threshold 0 the Python
slice `[-0:]` covers the whole memory and the equivalence fails.) -/
theorem is_stuck_iff (a : BaseAgent) (hth : 1 ≤ a.duplicate_threshold) :
    a.is_stuck = true ↔
      (a.duplicate_threshold ≤ a.memory.messages.length ∧
        ∀ m ∈ a.memory.messages.drop
            (a.memory.messages.length - a.duplicate_threshold),
          ∀ m' ∈ a.memory.messages.drop
            (a.memory.messages.length - a.duplicate_threshold),
            m.content = m'.content) := by
  unfold BaseAgent.is_stuck
  by_cases hlen : a.memory.messages.length < a.duplicate_threshold
  · rw [if_pos hlen]
    simp only [Bool.false_eq_true, false_iff]
    intro h
    omega
  · rw [if_neg hlen, pySliceLast_eq_drop _ _ hth]
    have hL : (a.memory.messages.drop
        (a.memory.messages.length - a.duplicate_threshold)).length =
        a.duplicate_threshold := by
      rw [List.length_drop]; omega
    match hM : a.memory.messages.drop
        (a.memory.messages.length - a.duplicate_threshold) with
    | [] =>
      rw [hM] at hL
      simp at hL
      omega
    | m0 :: rest =>
      show (rest.all fun m => m.content == m0.content) = true ↔ _
      rw [all_content_eq_iff]
      constructor
      · intro h
        exact ⟨by omega, h⟩
      · intro h
        exact h.2

/-- C10 amended witness: threshold 2 with two identical trailing messages. -/
theorem is_stuck_iff_witness :
    ({ duplicate_threshold := 2,
       memory := { messages := [Message.user_message "x", Message.user_message "x"] } }
        : BaseAgent).is_stuck = true ↔
      (({ duplicate_threshold := 2,
          memory := { messages := [Message.user_message "x", Message.user_message "x"] } }
          : BaseAgent).duplicate_threshold ≤ 2 ∧
        ∀ m ∈ ([Message.user_message "x", Message.user_message "x"].drop (2 - 2)),
          ∀ m' ∈ ([Message.user_message "x", Message.user_message "x"].drop (2 - 2)),
            m.content = m'.content) :=
  is_stuck_iff _ (by decide)

/-! ## Plan store (`app/tool/planning.py`) -/

/-- One plan record, as stored in `PlanningTool.plans`.  Step statuses are
plain strings in the source (`"not_started"`, `"in_progress"`, `"completed"`,
`"blocked"`); the renderer maps anything else to the `"[-]"` marker. -/
structure Plan where
  plan_id : String
  title : String
  steps : List String
  step_statuses : List String
  step_notes : List String
deriving DecidableEq, Repr

/-- `PlanningTool` instance state: the `plans` dict (modelled as an
association list keyed by plan id) and `_current_plan_id`. -/
structure PlanningTool where
  plans : List (String × Plan) := []
  current_plan_id : Option String := none
deriving DecidableEq, Repr

/-- `plans[plan_id] = plan`: replace the entry if the key exists, else append. -/
def setPlan : List (String × Plan) → String → Plan → List (String × Plan)
  | [], pid, p => [(pid, p)]
  | (k, q) :: rest, pid, p =>
    if k == pid then (pid, p) :: rest else (k, q) :: setPlan rest pid p

/-- Marker map from `_format_plan` (`app/tool/planning.py` lines 428-433),
with the `.get(status, "[-]")` default. -/
def statusMarker (status : String) : String :=
  if status = "not_started" then "[ ]"
  else if status = "in_progress" then "[→]"
  else if status = "completed" then "[✓]"
  else if status = "blocked" then "[!]"
  else "[-]"

/-- The `for i, (step, status, notes) in enumerate(zip(...))` loop of
`_format_plan` (lines 425-438): one output entry per zipped step, the notes
(when truthy) appended to the same entry after a newline. -/
def formatSteps : Nat → List (String × String × String) → List String
  | _, [] => []
  | i, (step, status, notes) :: rest =>
    (Nat.repr i ++ ". " ++ statusMarker status ++ " " ++ step ++
      (if notes ≠ "" then "\n   Notes: " ++ notes else "")) :: formatSteps (i + 1) rest

/-- `PlanningTool._format_plan` (`app/tool/planning.py` lines 411-445). -/
def format_plan (p : Plan) : String :=
  let entries := formatSteps 0 (p.steps.zip (p.step_statuses.zip p.step_notes))
  let completed := (p.step_statuses.filter (fun s => s == "completed")).length
  pyJoin "\n" (("Plan: " ++ p.plan_id ++ " - " ++ p.title) :: "\nSteps:" ::
    entries ++ ["\nProgress: " ++ Nat.repr completed ++ "/" ++
      Nat.repr p.steps.length ++ " steps completed"])

/-- `PlanningTool._create_plan` (`app/tool/planning.py` lines 153-201).
`if not steps or not isinstance(...)` collapses to "`steps` is `None` or
empty" once the element type is fixed by the embedding. -/
def PlanningTool.create_plan (t : PlanningTool) (plan_id title : Option String)
    (steps : Option (List String)) : Except String (PlanningTool × String) :=
  if ¬ pyTruthyOptStr plan_id then
    Except.error "Parameter `plan_id` is required for command: create"
  else if (List.lookup (plan_id.getD "") t.plans).isSome then
    Except.error ("A plan with ID '" ++ plan_id.getD "" ++
      "' already exists. Use 'update' to modify existing plans.")
  else if ¬ pyTruthyOptStr title then
    Except.error "Parameter `title` is required for command: create"
  else
    match steps with
    | none =>
      Except.error "Parameter `steps` must be a non-empty list of strings for command: create"
    | some s =>
      if s = [] then
        Except.error "Parameter `steps` must be a non-empty list of strings for command: create"
      else
        let plan : Plan :=
          { plan_id := plan_id.getD ""
            title := title.getD ""
            steps := s
            step_statuses := List.replicate s.length "not_started"
            step_notes := List.replicate s.length "" }
        Except.ok
          ({ plans := setPlan t.plans (plan_id.getD "") plan
             current_plan_id := some (plan_id.getD "") },
            "Plan created successfully with ID: " ++ plan_id.getD "" ++ "\n\n" ++
              format_plan plan)

/-- The `for i, step in enumerate(steps)` loop of `_update_plan` (lines
245-252), building the new status/notes lists.  Python indexes
`old_statuses[i]`/`old_notes[i]` directly, which presumes the stored
invariant that both lists are as long as `old_steps`; `getD` is the total
rendering of that indexing. -/
def buildStepState (old_steps old_statuses old_notes : List String) :
    Nat → List String → List String × List String
  | _, [] => ([], [])
  | i, step :: rest =>
    let tails := buildStepState old_steps old_statuses old_notes (i + 1) rest
    if i < old_steps.length ∧ old_steps.getD i "" = step then
      (old_statuses.getD i "" :: tails.1, old_notes.getD i "" :: tails.2)
    else
      ("not_started" :: tails.1, "" :: tails.2)

/-- `PlanningTool._update_plan` (`app/tool/planning.py` lines 203-260).
`if title:` and `if steps:` are Python truthiness: `None`, `""` and `[]`
leave the corresponding field untouched. -/
def PlanningTool.update_plan (t : PlanningTool) (plan_id title : Option String)
    (steps : Option (List String)) : Except String (PlanningTool × String) :=
  if ¬ pyTruthyOptStr plan_id then
    Except.error "Parameter `plan_id` is required for command: update"
  else
    match List.lookup (plan_id.getD "") t.plans with
    | none => Except.error ("No plan found with ID: " ++ plan_id.getD "")
    | some plan =>
      let plan1 := if pyTruthyOptStr title then { plan with title := title.getD "" } else plan
      let plan2 := match steps with
        | some s =>
          if s ≠ [] then
            { plan1 with
              steps := s
              step_statuses := (buildStepState plan.steps plan.step_statuses plan.step_notes 0 s).1
              step_notes := (buildStepState plan.steps plan.step_statuses plan.step_notes 0 s).2 }
          else plan1
        | none => plan1
      Except.ok ({ t with plans := setPlan t.plans (plan_id.getD "") plan2 },
        "Plan updated successfully: " ++ plan_id.getD "" ++ "\n\n" ++ format_plan plan2)

/-- `PlanningTool._mark_step` (`app/tool/planning.py` lines 335-384).  The
first guard is Python's `if not step_index:`, which is taken for `None` and
for the integer `0` alike. -/
def PlanningTool.mark_step (t : PlanningTool) (plan_id : Option String)
    (step_index : Option Int) (step_status step_notes : Option String) :
    Except String (PlanningTool × String) :=
  if ¬ pyTruthyOptInt step_index then
    Except.error "Parameter `step_index` is required for command: mark_step"
  else if ¬ pyTruthyOptStr step_status then
    Except.error "Parameter `step_status` is required for command: mark_step"
  else
    match (if pyTruthyOptStr plan_id then Except.ok (plan_id.getD "")
      else if pyTruthyOptStr t.current_plan_id then Except.ok (t.current_plan_id.getD "")
      else Except.error "No active plan. Please specify a plan_id or set an active plan."
      : Except String String) with
    | Except.error e => Except.error e
    | Except.ok pid =>
      match List.lookup pid t.plans with
      | none => Except.error ("No plan found with ID: " ++ pid)
      | some plan =>
        let idx := step_index.getD 0
        if idx < 0 ∨ (plan.steps.length : Int) ≤ idx then
          Except.error ("Invalid step_index: " ++ toString idx ++
            ". Must be between 0 and " ++ toString ((plan.steps.length : Int) - 1))
        else
          let plan' :=
            { plan with
              step_statuses := plan.step_statuses.set idx.toNat (step_status.getD "")
              step_notes := if pyTruthyOptStr step_notes then
                  plan.step_notes.set idx.toNat (step_notes.getD "")
                else plan.step_notes }
          Except.ok ({ t with plans := setPlan t.plans pid plan' },
            "Updated step " ++ toString idx ++ " in plan '" ++ pid ++ "'\n\n" ++
              format_plan plan')

/-- `PlanningTool._get_plan` (`app/tool/planning.py` lines 290-313). -/
def PlanningTool.get_plan (t : PlanningTool) (plan_id : Option String) :
    Except String String :=
  match (if pyTruthyOptStr plan_id then Except.ok (plan_id.getD "")
    else if pyTruthyOptStr t.current_plan_id then Except.ok (t.current_plan_id.getD "")
    else Except.error "No active plan. Please specify a plan_id or set an active plan."
    : Except String String) with
  | Except.error e => Except.error e
  | Except.ok pid =>
    match List.lookup pid t.plans with
    | none => Except.error ("No plan found with ID: " ++ pid)
    | some plan => Except.ok (format_plan plan)

/-! ## Claim C1

`_mark_step` guards with `if not step_index:` (line 353).  Python's `not 0`
is `True`, so the valid index 0 is rejected as "missing" — contradicting the
tool's own parameter documentation ("Index of the step to update (0-based)")
and its own range error message ("Must be between 0 and N-1").  The claimed
scenario `create("p1","T",["a","b"])` then `mark_step("p1",0,"completed")`
therefore raises instead of marking step 0. -/

/-- C1: `mark_step` with `step_index = 0` always reports the parameter as
missing; in particular the claim's own scenario (create `p1` with two steps,
then mark step 0 completed) fails with that error instead of rendering
"1/2 steps completed". -/
theorem mark_step_zero_rejected :
    (∀ (t : PlanningTool) (plan_id : Option String) (step_status step_notes : Option String),
      t.mark_step plan_id (some 0) step_status step_notes =
        Except.error "Parameter `step_index` is required for command: mark_step") ∧
    (match PlanningTool.create_plan {} (some "p1") (some "T") (some ["a", "b"]) with
      | Except.ok (t, _) => t.mark_step (some "p1") (some 0) (some "completed") none
      | Except.error e => Except.error e) =
      Except.error "Parameter `step_index` is required for command: mark_step" := by
  constructor
  · intro t plan_id step_status step_notes
    rfl
  · rfl

/-! ## Claim C8 -/

theorem lookup_setPlan (l : List (String × Plan)) (pid : String) (p : Plan) :
    List.lookup pid (setPlan l pid p) = some p := by
  induction l with
  | nil => simp [setPlan, List.lookup]
  | cons kv rest ih =>
    obtain ⟨k, q⟩ := kv
    by_cases hk : k = pid
    · simp [setPlan, hk, List.lookup]
    · simp only [setPlan, beq_iff_eq, if_neg hk, List.lookup]
      have : (pid == k) = false := by simp [beq_iff_eq]; exact fun h => hk h.symm
      rw [this]
      exact ih

theorem buildStepState_getD (old_steps old_statuses old_notes : List String) :
    ∀ (s : List String) (k i : Nat), i < s.length →
      ((k + i < old_steps.length ∧ old_steps.getD (k + i) "" = s.getD i "") →
        (buildStepState old_steps old_statuses old_notes k s).1.getD i "" =
            old_statuses.getD (k + i) "" ∧
          (buildStepState old_steps old_statuses old_notes k s).2.getD i "" =
            old_notes.getD (k + i) "") ∧
      (¬ (k + i < old_steps.length ∧ old_steps.getD (k + i) "" = s.getD i "") →
        (buildStepState old_steps old_statuses old_notes k s).1.getD i "" = "not_started" ∧
          (buildStepState old_steps old_statuses old_notes k s).2.getD i "" = "") := by
  intro s
  induction s with
  | nil => intro k i hi; simp at hi
  | cons step rest ih =>
    intro k i hi
    match i with
    | 0 =>
      simp only [Nat.add_zero, List.getD_cons_zero]
      unfold buildStepState
      by_cases hc : k < old_steps.length ∧ old_steps.getD k "" = step
      · rw [if_pos hc]
        exact ⟨fun _ => ⟨rfl, rfl⟩, fun hn => absurd hc hn⟩
      · rw [if_neg hc]
        exact ⟨fun h => absurd h hc, fun _ => ⟨rfl, rfl⟩⟩
    | j + 1 =>
      have hj : j < rest.length := by simpa using hi
      have := ih (k + 1) j hj
      have harith : k + 1 + j = k + (j + 1) := by omega
      rw [harith] at this
      simp only [List.getD_cons_succ]
      unfold buildStepState
      by_cases hc : k < old_steps.length ∧ old_steps.getD k "" = step
      · rw [if_pos hc]
        simpa using this
      · rw [if_neg hc]
        simpa using this

/-- C8: `update` fails when the plan is missing; otherwise, with a new steps
list, every position whose text equals the old text at the same index keeps
its previous status and notes and every other position of the new list is
reset to `not_started` with empty notes (an empty steps list is falsy in
Python and leaves the plan unchanged).  The invariant hypotheses mirror the
stored representation: status and notes lists are as long as the steps list. -/
theorem update_plan_spec (t : PlanningTool) (pid : String) (new_steps : List String)
    (hpid : pid ≠ "") :
    (List.lookup pid t.plans = none →
      t.update_plan (some pid) none (some new_steps) =
        Except.error ("No plan found with ID: " ++ pid)) ∧
    (∀ p : Plan, List.lookup pid t.plans = some p →
      ∃ t' msg p', t.update_plan (some pid) none (some new_steps) = Except.ok (t', msg) ∧
        List.lookup pid t'.plans = some p' ∧
        (new_steps = [] → p' = p) ∧
        (new_steps ≠ [] → p'.steps = new_steps ∧
          ∀ i : Nat, i < new_steps.length →
            ((i < p.steps.length ∧ p.steps.getD i "" = new_steps.getD i "") →
              p'.step_statuses.getD i "" = p.step_statuses.getD i "" ∧
                p'.step_notes.getD i "" = p.step_notes.getD i "") ∧
            (¬ (i < p.steps.length ∧ p.steps.getD i "" = new_steps.getD i "") →
              p'.step_statuses.getD i "" = "not_started" ∧
                p'.step_notes.getD i "" = ""))) := by
  have htruthy : pyTruthyOptStr (some pid) = true := by
    simp only [pyTruthyOptStr, bne_iff_ne, ne_eq, decide_eq_true_eq]
    exact hpid
  constructor
  · intro hnone
    unfold PlanningTool.update_plan
    rw [if_neg (fun hn => hn htruthy)]
    simp only [Option.getD_some]
    rw [hnone]
  · intro p hsome
    unfold PlanningTool.update_plan
    rw [if_neg (fun hn => hn htruthy)]
    simp only [Option.getD_some]
    rw [hsome]
    by_cases hempty : new_steps = []
    · subst hempty
      exact ⟨_, _, p, rfl, lookup_setPlan t.plans pid p, fun _ => rfl,
        fun hne => absurd rfl hne⟩
    · obtain ⟨s0, s1, rfl⟩ := List.exists_cons_of_ne_nil hempty
      refine ⟨_, _, _, rfl, lookup_setPlan t.plans pid _,
        fun he => absurd he hempty, fun _ => ⟨rfl, ?_⟩⟩
      intro i hi
      have h := buildStepState_getD p.steps p.step_statuses p.step_notes (s0 :: s1) 0 i hi
      simpa only [Nat.zero_add] using h

/-- C8 witness: updating `["a","b"]` (step 0 completed) to `["a","c"]` keeps
step 0's status/notes and resets step 1. -/
theorem update_plan_spec_witness :
    ∃ t' msg p',
      (PlanningTool.mk [("p1", Plan.mk "p1" "T" ["a", "b"] ["completed", "not_started"] ["", ""])]
          (some "p1")).update_plan (some "p1") none (some ["a", "c"]) = Except.ok (t', msg) ∧
      List.lookup "p1" t'.plans = some p' ∧
      p'.steps = ["a", "c"] ∧
      p'.step_statuses.getD 0 "" = "completed" ∧
      p'.step_statuses.getD 1 "" = "not_started" ∧
      p'.step_notes.getD 0 "" = "" ∧
      p'.step_notes.getD 1 "" = "" := by
  have h := (update_plan_spec
    (PlanningTool.mk [("p1", Plan.mk "p1" "T" ["a", "b"] ["completed", "not_started"] ["", ""])]
      (some "p1")) "p1" ["a", "c"] (by decide)).2
    (Plan.mk "p1" "T" ["a", "b"] ["completed", "not_started"] ["", ""]) (by decide)
  obtain ⟨t', msg, p', heq, hlook, _, hcons⟩ := h
  have hres := hcons (by decide)
  have h0 := (hres.2 0 (by decide)).1 (by decide)
  have h1 := (hres.2 1 (by decide)).2 (by decide)
  exact ⟨t', msg, p', heq, hlook, hres.1, h0.1, h1.1, h0.2, h1.2⟩

/-! ## Flow orchestrator step execution (`app/flow/planning.py`) -/

/-- The `PlanningFlow` state that `_execute_step`/`_mark_step_completed`
touch: the shared planning tool, the flow's plan id, and the current step
index. -/
structure PlanningFlow where
  planning_tool : PlanningTool := {}
  active_plan_id : String := "plan_0"
  current_step_index : Option Nat := none
deriving DecidableEq, Repr

/-- `PlanningFlow._mark_step_completed` (`app/flow/planning.py` lines
445-489): no-op without a current step; otherwise call the planning tool's
`mark_step`, and on any exception fall back to a direct storage update that
pads `step_statuses` with `not_started` up to the index (the `while` loop)
and then writes `completed`. -/
def PlanningFlow.mark_step_completed (f : PlanningFlow) : PlanningFlow :=
  match f.current_step_index with
  | none => f
  | some idx =>
    match f.planning_tool.mark_step (some f.active_plan_id) (some (idx : Int))
        (some "completed") none with
    | Except.ok (t', _) => { f with planning_tool := t' }
    | Except.error _ =>
      match List.lookup f.active_plan_id f.planning_tool.plans with
      | none => f
      | some plan_data =>
        let step_statuses := plan_data.step_statuses ++
          List.replicate (idx + 1 - plan_data.step_statuses.length) "not_started"
        { f with
          planning_tool :=
            { f.planning_tool with
              plans := setPlan f.planning_tool.plans f.active_plan_id
                { plan_data with step_statuses := step_statuses.set idx "completed" } } }

/-- `PlanningFlow._execute_step` (`app/flow/planning.py` lines 398-443),
parametrised over the outcome of the chosen executor's `run()`: on a normal
return the step is marked completed and the result returned; when `run()`
raises, the exception is caught, an error string is returned, and the plan is
left untouched. -/
def PlanningFlow.execute_step (f : PlanningFlow) (runOutcome : Except String String) :
    PlanningFlow × String :=
  match runOutcome with
  | Except.ok step_result => (f.mark_step_completed, step_result)
  | Except.error e =>
    (f, "Error executing step " ++ (match f.current_step_index with
        | some i => Nat.repr i
        | none => "None") ++ ": " ++ e)

theorem getD_set_self {α : Type} : ∀ (l : List α) (i : Nat) (a d : α),
    i < l.length → (l.set i a).getD i d = a := by
  intro l
  induction l with
  | nil => intro i a d hi; simp at hi
  | cons x xs ih =>
    intro i a d hi
    match i with
    | 0 => rfl
    | j + 1 =>
      have hj : j < xs.length := by simpa using hi
      simpa using ih j a d hj

/-! ## Claim C4

`_execute_step` marks the step completed only on the `try` path; if the
executor's `run()` raises, the `except` branch returns an error string and
never calls `_mark_step_completed`, so the marking is not unconditional. -/

/-- Flow state with one in-progress step, used as the C4 counterexample. -/
def flowCex : PlanningFlow :=
  { planning_tool :=
      { plans := [("p1", Plan.mk "p1" "T" ["a"] ["in_progress"] [""])]
        current_plan_id := some "p1" }
    active_plan_id := "p1"
    current_step_index := some 0 }

/-- C4 counterexample: when the executor's `run()` raises, `_execute_step`
leaves the flow (and hence the plan store) unchanged — step 0 stays
`in_progress`, not `completed` — so the claimed unconditional marking is
false at this concrete input. -/
theorem flow_unconditional_mark_claim_false :
    (flowCex.execute_step (Except.error "boom")).1 = flowCex ∧
    (List.lookup "p1" flowCex.planning_tool.plans).map
        (fun p => p.step_statuses.getD 0 "") = some "in_progress" ∧
    "in_progress" ≠ "completed" := by
  exact ⟨rfl, rfl, by decide⟩

theorem mark_step_completed_sets (f : PlanningFlow) (i : Nat) (p : Plan)
    (hidx : f.current_step_index = some i)
    (hactive : f.active_plan_id ≠ "")
    (hplan : List.lookup f.active_plan_id f.planning_tool.plans = some p)
    (hinv : p.step_statuses.length = p.steps.length) :
    ∃ p', List.lookup f.active_plan_id f.mark_step_completed.planning_tool.plans = some p' ∧
      p'.step_statuses.getD i "" = "completed" := by
  have hactive' : pyTruthyOptStr (some f.active_plan_id) = true := by
    simp only [pyTruthyOptStr, bne_iff_ne, ne_eq, decide_eq_true_eq]
    exact hactive
  unfold PlanningFlow.mark_step_completed
  rw [hidx]
  dsimp only
  by_cases hzero : i = 0
  · subst hzero
    have htool : f.planning_tool.mark_step (some f.active_plan_id) (some ((0 : Nat) : Int))
        (some "completed") none =
        Except.error "Parameter `step_index` is required for command: mark_step" := rfl
    rw [htool]
    dsimp only
    rw [hplan]
    dsimp only
    refine ⟨_, lookup_setPlan _ _ _, ?_⟩
    show ((p.step_statuses ++
      List.replicate (0 + 1 - p.step_statuses.length) "not_started").set 0 "completed").getD
        0 "" = "completed"
    apply getD_set_self
    simp only [List.length_append, List.length_replicate]
    omega
  · have hIdxNe : (i : Int) ≠ 0 := by
      exact_mod_cast hzero
    have hIdx : pyTruthyOptInt (some (i : Int)) = true := by
      simp only [pyTruthyOptInt, bne_iff_ne, ne_eq, decide_eq_true_eq]
      exact hIdxNe
    by_cases hlt : i < p.steps.length
    · -- in range and nonzero: the planning tool call succeeds
      have hbound : ¬ ((i : Int) < 0 ∨ (p.steps.length : Int) ≤ (i : Int)) := by
        push_neg
        refine ⟨by omega, ?_⟩
        omega
      have htool : f.planning_tool.mark_step (some f.active_plan_id) (some (i : Int))
          (some "completed") none =
          Except.ok ({ f.planning_tool with
              plans := setPlan f.planning_tool.plans f.active_plan_id
                { p with
                  step_statuses := p.step_statuses.set ((i : Int)).toNat "completed" } },
            "Updated step " ++ toString ((i : Int)) ++ " in plan '" ++
              f.active_plan_id ++ "'\n\n" ++ format_plan
              { p with
                step_statuses := p.step_statuses.set ((i : Int)).toNat "completed" }) := by
        unfold PlanningTool.mark_step
        rw [if_neg (fun hn => hn hIdx)]
        rw [if_neg (by decide)]
        rw [if_pos hactive']
        simp only [Option.getD_some]
        rw [hplan]
        dsimp only
        rw [if_neg hbound]
        rfl
      rw [htool]
      refine ⟨_, lookup_setPlan _ _ _, ?_⟩
      show (p.step_statuses.set ((i : Int)).toNat "completed").getD i "" = "completed"
      have htn : ((i : Int)).toNat = i := rfl
      rw [htn]
      apply getD_set_self
      omega
    · -- out of range: the tool raises ToolError, the fallback pads and sets
      have hbound : (i : Int) < 0 ∨ (p.steps.length : Int) ≤ (i : Int) := by
        refine Or.inr ?_
        omega
      have htool : f.planning_tool.mark_step (some f.active_plan_id) (some (i : Int))
          (some "completed") none =
          Except.error ("Invalid step_index: " ++ toString ((i : Int)) ++
            ". Must be between 0 and " ++ toString ((p.steps.length : Int) - 1)) := by
        unfold PlanningTool.mark_step
        rw [if_neg (fun hn => hn hIdx)]
        rw [if_neg (by decide)]
        rw [if_pos hactive']
        simp only [Option.getD_some]
        rw [hplan]
        dsimp only
        rw [if_pos hbound]
      rw [htool]
      dsimp only
      rw [hplan]
      dsimp only
      refine ⟨_, lookup_setPlan _ _ _, ?_⟩
      show ((p.step_statuses ++
        List.replicate (i + 1 - p.step_statuses.length) "not_started").set i
          "completed").getD i "" = "completed"
      apply getD_set_self
      simp only [List.length_append, List.length_replicate]
      omega

/-- C4 (amended): the Flow marks the dispatched step completed exactly when
the executor's `run()` returns normally — independent of whether the executor
reports success or failure in its result or terminal state — while a raising
`run()` is caught, turned into an error string, and leaves the Plan Store
unchanged. -/
theorem execute_step_marks_iff_run_returns (f : PlanningFlow) (i : Nat) (p : Plan)
    (hidx : f.current_step_index = some i)
    (hactive : f.active_plan_id ≠ "")
    (hplan : List.lookup f.active_plan_id f.planning_tool.plans = some p)
    (hinv : p.step_statuses.length = p.steps.length) :
    (∀ r : String, ∃ p',
      List.lookup f.active_plan_id (f.execute_step (Except.ok r)).1.planning_tool.plans =
          some p' ∧
        p'.step_statuses.getD i "" = "completed" ∧
        (f.execute_step (Except.ok r)).2 = r) ∧
    (∀ e : String, (f.execute_step (Except.error e)).1 = f) := by
  constructor
  · intro r
    obtain ⟨p', hlook, hdone⟩ := mark_step_completed_sets f i p hidx hactive hplan hinv
    exact ⟨p', hlook, hdone, rfl⟩
  · intro e
    rfl

/-- C4 witness: the amended theorem at a concrete flow — a successful run
marks step 0 completed, a raising run leaves the plan untouched. -/
theorem execute_step_marks_iff_run_returns_witness :
    (∀ r : String, ∃ p',
      List.lookup "p1" (flowCex.execute_step (Except.ok r)).1.planning_tool.plans = some p' ∧
        p'.step_statuses.getD 0 "" = "completed" ∧
        (flowCex.execute_step (Except.ok r)).2 = r) ∧
    (∀ e : String, (flowCex.execute_step (Except.error e)).1 = flowCex) :=
  execute_step_marks_iff_run_returns flowCex 0
    (Plan.mk "p1" "T" ["a"] ["in_progress"] [""]) rfl (by decide) (by decide) (by decide)

/-! ## Step locators (`app/agent/planning.py` and `app/flow/planning.py`)

The text-based locator parses the rendered plan; Python string primitives
(`splitlines`, `strip`, `in`) are modelled at the character-list level, with
the full CPython line-boundary and whitespace character sets. -/

/-- The characters Python `str.splitlines` treats as line boundaries:
`\n`, `\r` (with `\r\n` counting as one boundary), `\v`, `\f`, the file,
group and record separators, NEL, and the Unicode line and paragraph
separators. -/
def isPyLineBreak (c : Char) : Bool :=
  c == '\n' || c == '\r' || c == '\x0b' || c == '\x0c' || c == '\x1c' ||
  c == '\x1d' || c == '\x1e' || c == '\x85' || c == '\u2028' || c == '\u2029'

/-- Split at every line boundary (with `'\r'` immediately followed by `'\n'`
consumed as a single boundary), keeping a (possibly empty) final segment: the
common core of Python `str.splitlines`. -/
def splitKeep : List Char → List (List Char)
  | [] => [[]]
  | [c] => if isPyLineBreak c then [[], []] else [[c]]
  | c :: c2 :: rest =>
    if isPyLineBreak c then
      if c == '\r' && c2 == '\n' then [] :: splitKeep rest
      else [] :: splitKeep (c2 :: rest)
    else
      match splitKeep (c2 :: rest) with
      | [] => [[c]]
      | l :: ls => (c :: l) :: ls

/-- Python `str.splitlines`: like `splitKeep` but a trailing line boundary
does not produce a final empty line, and `"".splitlines()` is `[]`. -/
def pySplitLines (s : List Char) : List (List Char) :=
  if (splitKeep s).getLast? = some [] then (splitKeep s).dropLast else splitKeep s

/-- The characters Python `str.strip()` (equivalently `str.isspace`) treats
as whitespace: `\t\n\v\f\r`, the separator controls `\x1c`-`\x1f`, space,
NEL, no-break space, Ogham space mark, the U+2000-U+200A spaces, line
and paragraph separators, narrow no-break space, medium mathematical space,
and ideographic space. -/
def isPySpace (c : Char) : Bool :=
  c == '\t' || c == '\n' || c == '\x0b' || c == '\x0c' || c == '\r' ||
  c == '\x1c' || c == '\x1d' || c == '\x1e' || c == '\x1f' || c == ' ' ||
  c == '\x85' || c == '\xa0' || c == '\u1680' ||
  c == '\u2000' || c == '\u2001' || c == '\u2002' || c == '\u2003' ||
  c == '\u2004' || c == '\u2005' || c == '\u2006' || c == '\u2007' ||
  c == '\u2008' || c == '\u2009' || c == '\u200a' ||
  c == '\u2028' || c == '\u2029' || c == '\u202f' || c == '\u205f' ||
  c == '\u3000'

/-- Python `str.strip()`: drop whitespace from both ends. -/
def pyStrip (l : List Char) : List Char :=
  ((l.dropWhile isPySpace).reverse.dropWhile isPySpace).reverse

/-- Python `str.startswith` on character lists. -/
def startsWithChars : List Char → List Char → Bool
  | [], _ => true
  | _ :: _, [] => false
  | p :: ps, c :: cs => p == c && startsWithChars ps cs

/-- Python `pat in s` substring test on character lists. -/
def containsSub (pat : List Char) : List Char → Bool
  | [] => startsWithChars pat []
  | c :: cs => startsWithChars pat (c :: cs) || containsSub pat cs

/-- The `for i, x in enumerate(xs)` search loop: index of the first element
satisfying the predicate. -/
def findIdxOpt {α : Type} (p : α → Bool) : List α → Option Nat
  | [] => none
  | x :: xs => if p x then some 0 else (findIdxOpt p xs).map (· + 1)

/-- The line test of `_get_current_step_index` (line 375):
`"[ ]" in line or "[→]" in line`. -/
def markerPred (line : List Char) : Bool :=
  containsSub "[ ]".data line || containsSub "[→]".data line

/-- `PlanningAgent._get_current_step_index` (`app/agent/planning.py` lines
330-391), applied to the rendered plan text: find the `"Steps:"` anchor line,
then return the enumeration index of the first following line containing
`"[ ]"` or `"[→]"`.  The `mark_step` side effect goes through the
ToolCollection, which absorbs ToolErrors, so it cannot change the returned
index. -/
def text_step_index (plan : String) : Option Nat :=
  match findIdxOpt (fun line => pyStrip line == "Steps:".data) (pySplitLines plan.data) with
  | none => none
  | some steps_index =>
    findIdxOpt markerPred ((pySplitLines plan.data).drop (steps_index + 1))

/-- The `for i, step in enumerate(steps)` loop of
`PlanningFlow._get_current_step_info` (`app/flow/planning.py` lines 347-386):
out-of-range statuses default to `not_started`, and a step is selected when
its status is in `get_active_statuses()`. -/
def structuredGo (statuses : List String) : List String → Nat → Option Nat
  | [], _ => none
  | _ :: steps, i =>
    let status := if statuses.length ≤ i then "not_started" else statuses.getD i ""
    if status == "not_started" || status == "in_progress" then some i
    else structuredGo statuses steps (i + 1)

/-- The index component of `PlanningFlow._get_current_step_info`. -/
def structured_step_index (p : Plan) : Option Nat :=
  structuredGo p.step_statuses p.steps 0

/-! ## Claim C3

The text locator counts rendered *lines* after the `"Steps:"` anchor, but a
step with notes renders as two lines (`step` line plus `   Notes:` line), so
any notes on a step before the first active one shift the returned index. -/

/-- Plan state used as the C3 counterexample: two completed steps, notes on
step 1, step 2 not started.  It is reachable: step 0 is completed through the
flow's direct-storage fallback, step 1 through
`mark_step(1, "completed", notes="x")`. -/
def locCexPlan : Plan :=
  Plan.mk "p1" "T" ["a", "b", "c"] ["completed", "completed", "not_started"] ["", "x", ""]

/-- C3 counterexample: on `locCexPlan` the text-based locator returns 3 (it
counts the `Notes:` line) while the structured locator returns 2, refuting
the claimed equivalence. -/
theorem locator_equivalence_claim_false :
    text_step_index (format_plan locCexPlan) = some 3 ∧
    structured_step_index locCexPlan = some 2 ∧
    (some 3 : Option Nat) ≠ some 2 := by
  refine ⟨?_, rfl, by decide⟩
  rfl

/-! ## Line-splitting lemmas for the amended C3 equivalence -/

theorem splitKeep_single (c : Char) :
    splitKeep [c] = if isPyLineBreak c then [[], []] else [[c]] := rfl

theorem splitKeep_cons2 (c c2 : Char) (rest : List Char) :
    splitKeep (c :: c2 :: rest) =
      if isPyLineBreak c then
        if c == '\r' && c2 == '\n' then [] :: splitKeep rest
        else [] :: splitKeep (c2 :: rest)
      else match splitKeep (c2 :: rest) with
        | [] => [[c]]
        | l :: ls => (c :: l) :: ls := rfl

/-- A non-boundary head character is prepended to the first segment. -/
theorem splitKeep_cons_nb (c : Char) (s : List Char) (hc : isPyLineBreak c = false) :
    splitKeep (c :: s) =
      match splitKeep s with
      | [] => [[c]]
      | l :: ls => (c :: l) :: ls := by
  have hcond : ¬ (isPyLineBreak c = true) := by rw [hc]; exact Bool.false_ne_true
  match s with
  | [] =>
    rw [splitKeep_single, if_neg hcond]
    rfl
  | c2 :: rest =>
    rw [splitKeep_cons2, if_neg hcond]

/-- A boundary character other than `'\r'` always starts a fresh segment. -/
theorem splitKeep_cons_break (c : Char) (s : List Char) (hc : isPyLineBreak c = true)
    (hcr : c ≠ '\r') : splitKeep (c :: s) = [] :: splitKeep s := by
  match s with
  | [] =>
    rw [splitKeep_single, if_pos hc]
    rfl
  | c2 :: rest =>
    have hpair : ¬ ((c == '\r' && c2 == '\n') = true) := by
      rw [beq_eq_false_iff_ne.mpr hcr, Bool.false_and]
      exact Bool.false_ne_true
    rw [splitKeep_cons2, if_pos hc, if_neg hpair]

theorem splitKeep_ne_nil : ∀ s : List Char, splitKeep s ≠ [] := by
  intro s
  match s with
  | [] => simp [splitKeep]
  | [c] =>
    rw [splitKeep_single]
    by_cases hc : isPyLineBreak c = true
    · rw [if_pos hc]; simp
    · rw [if_neg hc]; simp
  | c :: c2 :: rest =>
    rw [splitKeep_cons2]
    by_cases hc : isPyLineBreak c = true
    · rw [if_pos hc]
      by_cases hp : (c == '\r' && c2 == '\n') = true
      · rw [if_pos hp]; simp
      · rw [if_neg hp]; simp
    · rw [if_neg hc]
      match h : splitKeep (c2 :: rest) with
      | [] => simp
      | l :: ls => simp

theorem splitKeep_append_newline : ∀ a b : List Char, '\r' ∉ a →
    splitKeep (a ++ '\n' :: b) = splitKeep a ++ splitKeep b := by
  intro a
  induction a with
  | nil =>
    intro b _
    show splitKeep ('\n' :: b) = splitKeep [] ++ splitKeep b
    rw [splitKeep_cons_break '\n' b (by decide) (by decide)]
    rfl
  | cons c a' ih =>
    intro b hr
    have hcr : c ≠ '\r' := fun h => hr (by rw [h]; exact List.mem_cons_self _ _)
    have hr' : '\r' ∉ a' := fun h => hr (List.mem_cons_of_mem _ h)
    show splitKeep (c :: (a' ++ '\n' :: b)) = splitKeep (c :: a') ++ splitKeep b
    by_cases hc : isPyLineBreak c = true
    · rw [splitKeep_cons_break c _ hc hcr, splitKeep_cons_break c a' hc hcr, ih b hr']
      rfl
    · have hc' : isPyLineBreak c = false := by
        cases hx : isPyLineBreak c
        · rfl
        · exact absurd hx hc
      obtain ⟨l, ls, hl⟩ := List.exists_cons_of_ne_nil (splitKeep_ne_nil a')
      rw [splitKeep_cons_nb c _ hc', splitKeep_cons_nb c a' hc', ih b hr', hl]
      rfl

theorem splitKeep_no_break : ∀ s : List Char,
    (∀ c ∈ s, isPyLineBreak c = false) → splitKeep s = [s] := by
  intro s
  induction s with
  | nil => intro _; rfl
  | cons c rest ih =>
    intro h
    have hc : isPyLineBreak c = false := h c (List.mem_cons_self _ _)
    have hrest : ∀ x ∈ rest, isPyLineBreak x = false :=
      fun x hx => h x (List.mem_cons_of_mem _ hx)
    rw [splitKeep_cons_nb c rest hc, ih hrest]

/-- A run of non-boundary characters never contains `'\r'`. -/
theorem no_break_no_cr (l : List Char) (h : ∀ c ∈ l, isPyLineBreak c = false) :
    '\r' ∉ l := by
  intro hm
  have := h '\r' hm
  exact absurd this (by decide)

/-- The character-level form of `pyJoin "\n"`. -/
def charJoin : List (List Char) → List Char
  | [] => []
  | [x] => x
  | x :: y :: xs => x ++ '\n' :: charJoin (y :: xs)

theorem pyJoin_data : ∀ l : List String, (pyJoin "\n" l).data = charJoin (l.map String.data) := by
  intro l
  induction l with
  | nil => rfl
  | cons x xs ih =>
    match xs with
    | [] => rfl
    | y :: ys =>
      show (x ++ "\n" ++ pyJoin "\n" (y :: ys)).data =
        x.data ++ '\n' :: charJoin ((y :: ys).map String.data)
      rw [String.data_append, String.data_append, ih, List.append_assoc]
      rfl

theorem splitKeep_charJoin : ∀ (ls : List (List Char)) (x : List Char),
    '\r' ∉ x → (∀ e ∈ ls, '\r' ∉ e) →
    splitKeep (charJoin (x :: ls)) = ((x :: ls).map splitKeep).flatten := by
  intro ls
  induction ls with
  | nil =>
    intro x _ _
    show splitKeep x = splitKeep x ++ []
    rw [List.append_nil]
  | cons y ys ih =>
    intro x hx hls
    show splitKeep (x ++ '\n' :: charJoin (y :: ys)) = _
    rw [splitKeep_append_newline _ _ hx,
      ih y (hls y (List.mem_cons_self _ _)) (fun e he => hls e (List.mem_cons_of_mem _ he))]
    rfl

theorem flatten_map_singleton : ∀ ls : List (List Char),
    (∀ e ∈ ls, splitKeep e = [e]) → (ls.map splitKeep).flatten = ls := by
  intro ls
  induction ls with
  | nil => intro _; rfl
  | cons x xs ih =>
    intro h
    show splitKeep x ++ (xs.map splitKeep).flatten = x :: xs
    rw [h x (List.mem_cons_self _ _), ih (fun e he => h e (List.mem_cons_of_mem _ he))]
    rfl

/-! ## Digit-character lemmas (`Nat.repr` renders only digits) -/

theorem digitChar_isDigit (m : Nat) (hm : m < 10) : (Nat.digitChar m).isDigit = true := by
  interval_cases m <;> decide

theorem toDigitsCore_isDigit : ∀ (fuel n : Nat) (acc : List Char),
    (∀ c ∈ acc, c.isDigit = true) → ∀ c ∈ Nat.toDigitsCore 10 fuel n acc, c.isDigit = true := by
  intro fuel
  induction fuel with
  | zero =>
    intro n acc hacc c hc
    exact hacc c hc
  | succ f ih =>
    intro n acc hacc c hc
    rw [Nat.toDigitsCore] at hc
    have hd : (Nat.digitChar (n % 10)).isDigit = true :=
      digitChar_isDigit _ (Nat.mod_lt n (by decide))
    by_cases hz : n / 10 = 0
    · rw [if_pos hz] at hc
      rcases List.mem_cons.mp hc with h | h
      · rw [h]; exact hd
      · exact hacc c h
    · rw [if_neg hz] at hc
      refine ih (n / 10) (Nat.digitChar (n % 10) :: acc) ?_ c hc
      intro c' hc'
      rcases List.mem_cons.mp hc' with h | h
      · rw [h]; exact hd
      · exact hacc c' h

theorem repr_isDigit (n : Nat) : ∀ c ∈ (Nat.repr n).data, c.isDigit = true := by
  intro c hc
  have hd : (Nat.repr n).data = Nat.toDigitsCore 10 (n + 1) n [] := rfl
  rw [hd] at hc
  exact toDigitsCore_isDigit (n + 1) n [] (by simp) c hc

/-- A digit character is not a line boundary. -/
theorem isDigit_not_break (c : Char) (h : c.isDigit = true) : isPyLineBreak c = false := by
  have hne : ∀ d : Char, d.isDigit = false → (c == d) = false := by
    intro d hd
    rw [beq_eq_false_iff_ne]
    intro hcd
    rw [hcd] at h
    rw [h] at hd
    exact Bool.noConfusion hd
  unfold isPyLineBreak
  rw [hne '\n' (by decide), hne '\r' (by decide), hne '\x0b' (by decide),
    hne '\x0c' (by decide), hne '\x1c' (by decide), hne '\x1d' (by decide),
    hne '\x1e' (by decide), hne '\x85' (by decide), hne '\u2028' (by decide),
    hne '\u2029' (by decide)]
  rfl

theorem repr_no_break (n : Nat) : ∀ c ∈ (Nat.repr n).data, isPyLineBreak c = false :=
  fun c hc => isDigit_not_break c (repr_isDigit n c hc)

theorem repr_no_bracket (n : Nat) : '[' ∉ (Nat.repr n).data := by
  intro h
  have := repr_isDigit n '[' h
  exact absurd this (by decide)

theorem statusMarker_no_break (st : String) :
    ∀ c ∈ (statusMarker st).data, isPyLineBreak c = false := by
  unfold statusMarker
  split
  · decide
  · split
    · decide
    · split
      · decide
      · split <;> decide

/-! ## Substring-scan lemmas: where `"[ ]"`/`"[→]"` can occur in a step line -/

theorem startsWithChars_append_self : ∀ (p rest : List Char),
    startsWithChars p (p ++ rest) = true := by
  intro p
  induction p with
  | nil => intro rest; rfl
  | cons c cs ih =>
    intro rest
    show (c == c && startsWithChars cs (cs ++ rest)) = true
    rw [ih rest]
    simp

theorem containsSub_of_startsWith : ∀ (pat s : List Char),
    startsWithChars pat s = true → containsSub pat s = true := by
  intro pat s h
  match s with
  | [] => exact h
  | c :: cs =>
    show (startsWithChars pat (c :: cs) || containsSub pat cs) = true
    rw [h]
    rfl

theorem containsSub_no_bracket : ∀ (pm s : List Char), '[' ∉ s →
    containsSub ('[' :: pm) s = false := by
  intro pm s
  induction s with
  | nil => intro _; rfl
  | cons c cs ih =>
    intro h
    have hc : ('[' == c) = false := by
      rw [beq_eq_false_iff_ne]
      intro hcc
      exact h (by rw [← hcc]; exact List.mem_cons_self _ _)
    have h1 : startsWithChars ('[' :: pm) (c :: cs) = false := by
      show (('[' == c) && startsWithChars pm cs) = false
      rw [hc]
      rfl
    show (startsWithChars ('[' :: pm) (c :: cs) || containsSub ('[' :: pm) cs) = false
    rw [h1, ih (fun hm => h (List.mem_cons_of_mem _ hm))]
    rfl

theorem containsSub_append_skip : ∀ (pm A B : List Char), '[' ∉ A →
    containsSub ('[' :: pm) (A ++ B) = containsSub ('[' :: pm) B := by
  intro pm A
  induction A with
  | nil => intro B _; rfl
  | cons c A' ih =>
    intro B h
    have hc : ('[' == c) = false := by
      rw [beq_eq_false_iff_ne]
      intro hcc
      exact h (by rw [← hcc]; exact List.mem_cons_self _ _)
    have h1 : startsWithChars ('[' :: pm) (c :: (A' ++ B)) = false := by
      show (('[' == c) && startsWithChars pm (A' ++ B)) = false
      rw [hc]
      rfl
    show (startsWithChars ('[' :: pm) (c :: (A' ++ B)) || containsSub ('[' :: pm) (A' ++ B)) = _
    rw [h1, ih B (fun hm => h (List.mem_cons_of_mem _ hm))]
    rfl

theorem containsSub_self_marker (p1 p2 : Char) (rest : List Char) :
    containsSub ['[', p1, p2] ('[' :: p1 :: p2 :: rest) = true := by
  apply containsSub_of_startsWith
  exact startsWithChars_append_self ['[', p1, p2] rest

theorem containsSub_other_marker (p1 p2 m1 m2 : Char) (s : List Char)
    (hm1 : m1 ≠ '[') (hm2 : m2 ≠ '[') (hs : '[' ∉ s)
    (hne : (p1 == m1 && p2 == m2) = false) :
    containsSub ['[', p1, p2] ('[' :: m1 :: m2 :: ' ' :: s) = false := by
  have h1 : startsWithChars ['[', p1, p2] ('[' :: m1 :: m2 :: ' ' :: s) = false := by
    show (('[' == '[') && ((p1 == m1) && ((p2 == m2) && startsWithChars [] (' ' :: s)))) = false
    have hsw : startsWithChars [] (' ' :: s) = true := rfl
    rw [hsw]
    rcases Bool.and_eq_false_iff.mp hne with h | h <;> simp [h]
  have h2 : containsSub ['[', p1, p2] (m1 :: m2 :: ' ' :: s) = false := by
    rw [show m1 :: m2 :: ' ' :: s = [m1, m2, ' '] ++ s from rfl]
    rw [containsSub_append_skip]
    · exact containsSub_no_bracket _ s hs
    · intro hmem
      simp only [List.mem_cons, List.mem_singleton, List.not_mem_nil, or_false] at hmem
      rcases hmem with h | h | h
      · exact hm1 h.symm
      · exact hm2 h.symm
      · exact absurd h.symm (by decide : (' ' : Char) ≠ '[')
  show (startsWithChars ['[', p1, p2] ('[' :: m1 :: m2 :: ' ' :: s) ||
    containsSub ['[', p1, p2] (m1 :: m2 :: ' ' :: s)) = false
  rw [h1, h2]
  rfl

/-- The scan predicate on a rendered step line (notes empty) holds exactly
when the step's status is active: the markers are the only place a `"[ ]"` or
`"[→]"` substring can occur once the step text contains no `'['`. -/
theorem markerPred_line (k : Nat) (st s : String) (hs : '[' ∉ s.data) :
    markerPred (Nat.repr k ++ ". " ++ statusMarker st ++ " " ++ s ++ "").data =
      (st == "not_started" || st == "in_progress") := by
  have hdata : (Nat.repr k ++ ". " ++ statusMarker st ++ " " ++ s ++ "").data =
      (Nat.repr k).data ++ ('.' :: ' ' :: ((statusMarker st).data ++ (' ' :: s.data))) := by
    simp only [String.data_append]
    simp [List.append_assoc]
  unfold markerPred
  rw [hdata]
  have skip : ∀ pm : List Char,
      containsSub ('[' :: pm)
        ((Nat.repr k).data ++ ('.' :: ' ' :: ((statusMarker st).data ++ (' ' :: s.data)))) =
      containsSub ('[' :: pm) ((statusMarker st).data ++ (' ' :: s.data)) := by
    intro pm
    rw [containsSub_append_skip pm _ _ (repr_no_bracket k),
      show ('.' :: ' ' :: ((statusMarker st).data ++ (' ' :: s.data))) =
        ['.', ' '] ++ ((statusMarker st).data ++ (' ' :: s.data)) from rfl,
      containsSub_append_skip pm ['.', ' '] _ (by decide)]
  rw [show ("[ ]" : String).data = ['[', ' ', ']'] from rfl,
    show ("[→]" : String).data = ['[', '→', ']'] from rfl]
  rw [skip [' ', ']'], skip ['→', ']']]
  by_cases h1 : st = "not_started"
  · subst h1
    rw [show (statusMarker "not_started").data = ['[', ' ', ']'] from rfl]
    rw [show (['[', ' ', ']'] ++ (' ' :: s.data)) = '[' :: ' ' :: ']' :: ' ' :: s.data from rfl]
    rw [containsSub_self_marker]
    simp
  by_cases h2 : st = "in_progress"
  · subst h2
    rw [show (statusMarker "in_progress").data = ['[', '→', ']'] from rfl]
    rw [show (['[', '→', ']'] ++ (' ' :: s.data)) = '[' :: '→' :: ']' :: ' ' :: s.data from rfl]
    rw [containsSub_self_marker]
    rw [containsSub_other_marker ' ' ']' '→' ']' s.data (by decide) (by decide) hs (by decide)]
    simp
  by_cases h3 : st = "completed"
  · subst h3
    rw [show (statusMarker "completed").data = ['[', '✓', ']'] from rfl]
    rw [show (['[', '✓', ']'] ++ (' ' :: s.data)) = '[' :: '✓' :: ']' :: ' ' :: s.data from rfl]
    rw [containsSub_other_marker ' ' ']' '✓' ']' s.data (by decide) (by decide) hs (by decide),
      containsSub_other_marker '→' ']' '✓' ']' s.data (by decide) (by decide) hs (by decide)]
    simp
  by_cases h4 : st = "blocked"
  · subst h4
    rw [show (statusMarker "blocked").data = ['[', '!', ']'] from rfl]
    rw [show (['[', '!', ']'] ++ (' ' :: s.data)) = '[' :: '!' :: ']' :: ' ' :: s.data from rfl]
    rw [containsSub_other_marker ' ' ']' '!' ']' s.data (by decide) (by decide) hs (by decide),
      containsSub_other_marker '→' ']' '!' ']' s.data (by decide) (by decide) hs (by decide)]
    simp
  · have hmarker : statusMarker st = "[-]" := by
      unfold statusMarker
      rw [if_neg h1, if_neg h2, if_neg h3, if_neg h4]
    rw [hmarker]
    rw [show ("[-]" : String).data = ['[', '-', ']'] from rfl]
    rw [show (['[', '-', ']'] ++ (' ' :: s.data)) = '[' :: '-' :: ']' :: ' ' :: s.data from rfl]
    rw [containsSub_other_marker ' ' ']' '-' ']' s.data (by decide) (by decide) hs (by decide),
      containsSub_other_marker '→' ']' '-' ']' s.data (by decide) (by decide) hs (by decide)]
    rw [beq_eq_false_iff_ne.mpr h1, beq_eq_false_iff_ne.mpr h2]

/-! ## The common step-selection function both locators compute -/

/-- First index whose status is active, over (step, status, notes) triples:
the semantics both locators are meant to share. -/
def firstActiveTrip : List (String × String × String) → Option Nat
  | [] => none
  | (_, status, _) :: rest =>
    if status == "not_started" || status == "in_progress" then some 0
    else (firstActiveTrip rest).map (· + 1)

theorem firstActiveTrip_cons (s st n : String) (rest : List (String × String × String)) :
    firstActiveTrip ((s, st, n) :: rest) =
      if st == "not_started" || st == "in_progress" then some 0
      else (firstActiveTrip rest).map (· + 1) := rfl

theorem findIdxOpt_cons {α : Type} (p : α → Bool) (x : α) (xs : List α) :
    findIdxOpt p (x :: xs) = if p x then some 0 else (findIdxOpt p xs).map (· + 1) := rfl

theorem findIdxOpt_eq_none {α : Type} (p : α → Bool) :
    ∀ xs : List α, (∀ x ∈ xs, p x = false) → findIdxOpt p xs = none := by
  intro xs
  induction xs with
  | nil => intro _; rfl
  | cons x rest ih =>
    intro h
    have hx := h x (List.mem_cons_self _ _)
    have hrest := ih (fun y hy => h y (List.mem_cons_of_mem _ hy))
    rw [findIdxOpt_cons, hx, hrest]
    rfl

/-- The text-side scan over rendered step lines (notes empty, no `'['` in the
step texts) computes the common step-selection function; any trailing lines
without markers are ignored. -/
theorem scan_formatSteps : ∀ (l : List (String × String × String)) (k : Nat)
    (tail : List (List Char)),
    (∀ t ∈ tail, markerPred t = false) →
    (∀ e ∈ l, e.2.2 = "") →
    (∀ e ∈ l, '[' ∉ e.1.data) →
    findIdxOpt markerPred ((formatSteps k l).map String.data ++ tail) = firstActiveTrip l := by
  intro l
  induction l with
  | nil =>
    intro k tail htail _ _
    exact findIdxOpt_eq_none _ tail htail
  | cons e rest ih =>
    intro k tail htail hnotes hsteps
    obtain ⟨s, st, n⟩ := e
    have hn : n = "" := hnotes (s, st, n) (List.mem_cons_self _ _)
    subst hn
    have hs : '[' ∉ s.data := hsteps (s, st, "") (List.mem_cons_self _ _)
    have hline : markerPred ((Nat.repr k ++ ". " ++ statusMarker st ++ " " ++ s ++
        (if ("" : String) ≠ "" then "\n   Notes: " ++ "" else "")).data) =
        (st == "not_started" || st == "in_progress") := by
      rw [show (if ("" : String) ≠ "" then "\n   Notes: " ++ "" else "") = "" from rfl]
      exact markerPred_line k st s hs
    show findIdxOpt markerPred
      ((Nat.repr k ++ ". " ++ statusMarker st ++ " " ++ s ++
        (if ("" : String) ≠ "" then "\n   Notes: " ++ "" else "")).data ::
        ((formatSteps (k + 1) rest).map String.data ++ tail)) =
      firstActiveTrip ((s, st, "") :: rest)
    rw [findIdxOpt_cons, hline, firstActiveTrip_cons]
    by_cases hact : (st == "not_started" || st == "in_progress") = true
    · rw [if_pos hact, if_pos hact]
    · rw [if_neg hact, if_neg hact]
      rw [ih (k + 1) tail htail (fun e he => hnotes e (List.mem_cons_of_mem _ he))
        (fun e he => hsteps e (List.mem_cons_of_mem _ he))]

theorem drop_cons_facts {α : Type} : ∀ (l : List α) (i : Nat) (a : α) (t : List α) (d : α),
    l.drop i = a :: t → l.getD i d = a ∧ l.drop (i + 1) = t ∧ i < l.length := by
  intro l
  induction l with
  | nil =>
    intro i a t d h
    rw [List.drop_nil] at h
    exact absurd h (by simp)
  | cons x xs ih =>
    intro i a t d h
    match i with
    | 0 =>
      have h' : x :: xs = a :: t := h
      injection h' with hxa hxt
      subst hxa
      subst hxt
      exact ⟨rfl, rfl, by simp⟩
    | j + 1 =>
      have h' : xs.drop j = a :: t := h
      obtain ⟨h1, h2, h3⟩ := ih j a t d h'
      refine ⟨by simpa using h1, h2, by simp; omega⟩

theorem structuredGo_cons (statuses : List String) (s : String) (ss : List String) (i : Nat) :
    structuredGo statuses (s :: ss) i =
      if (if statuses.length ≤ i then "not_started" else statuses.getD i "") == "not_started" ||
          (if statuses.length ≤ i then "not_started" else statuses.getD i "") == "in_progress"
      then some i else structuredGo statuses ss (i + 1) := rfl

/-- The structured locator computes the common step-selection function, offset
by its starting index. -/
theorem structuredGo_eq_trip : ∀ (steps rst rnt : List String) (i : Nat)
    (statuses : List String),
    statuses.drop i = rst → rst.length = steps.length → rnt.length = steps.length →
    structuredGo statuses steps i =
      (firstActiveTrip (steps.zip (rst.zip rnt))).map (fun j => i + j) := by
  intro steps
  induction steps with
  | nil => intro rst rnt i statuses _ _ _; rfl
  | cons s ss ih =>
    intro rst rnt i statuses hdrop hl1 hl2
    match rst, hl1 with
    | st :: rst', hl1 =>
      match rnt, hl2 with
      | n :: rnt', hl2 =>
        obtain ⟨hgetD, hdrop', hlen⟩ := drop_cons_facts statuses i st rst' "" hdrop
        rw [List.zip_cons_cons, List.zip_cons_cons, firstActiveTrip_cons, structuredGo_cons]
        rw [if_neg (Nat.not_le.mpr hlen), hgetD]
        by_cases hact : (st == "not_started" || st == "in_progress") = true
        · rw [if_pos hact, if_pos hact]
          rfl
        · rw [if_neg hact, if_neg hact]
          rw [ih rst' rnt' (i + 1) statuses hdrop' (by simpa using hl1) (by simpa using hl2)]
          cases h : firstActiveTrip (ss.zip (rst'.zip rnt')) with
          | none => rfl
          | some j =>
            show some (i + 1 + j) = some (i + (j + 1))
            congr 1
            omega

/-! ## Decomposing the rendered plan into lines -/

theorem header_no_break (p : Plan)
    (h4a : ∀ c ∈ p.plan_id.data, isPyLineBreak c = false)
    (h4b : ∀ c ∈ p.title.data, isPyLineBreak c = false) :
    ∀ c ∈ ("Plan: " ++ p.plan_id ++ " - " ++ p.title).data, isPyLineBreak c = false := by
  intro c h
  simp only [String.data_append, List.mem_append] at h
  rcases h with ((h | h) | h) | h
  · exact (by decide : ∀ x ∈ ("Plan: " : String).data, isPyLineBreak x = false) c h
  · exact h4a c h
  · exact (by decide : ∀ x ∈ (" - " : String).data, isPyLineBreak x = false) c h
  · exact h4b c h

theorem formatSteps_data_no_break : ∀ (l : List (String × String × String)) (k : Nat),
    (∀ e ∈ l, e.2.2 = "") → (∀ e ∈ l, ∀ c ∈ e.1.data, isPyLineBreak c = false) →
    ∀ d ∈ (formatSteps k l).map String.data, ∀ c ∈ d, isPyLineBreak c = false := by
  intro l
  induction l with
  | nil => intro k _ _ d hd; simp [formatSteps] at hd
  | cons e rest ih =>
    intro k hn hs d hd
    obtain ⟨s, st, n⟩ := e
    have hn0 : n = "" := hn _ (List.mem_cons_self _ _)
    subst hn0
    have hd' : d ∈ ((Nat.repr k ++ ". " ++ statusMarker st ++ " " ++ s ++
        (if ("" : String) ≠ "" then "\n   Notes: " ++ "" else "")).data) ::
        (formatSteps (k + 1) rest).map String.data := hd
    rcases List.mem_cons.mp hd' with h | h
    · subst h
      intro c hmem
      rw [show (if ("" : String) ≠ "" then "\n   Notes: " ++ "" else "") = "" from rfl] at hmem
      simp only [String.data_append, List.mem_append] at hmem
      rcases hmem with ((((h1 | h2) | h3) | h4) | h5) | h6
      · exact repr_no_break k c h1
      · exact (by decide : ∀ x ∈ (". " : String).data, isPyLineBreak x = false) c h2
      · exact statusMarker_no_break st c h3
      · exact (by decide : ∀ x ∈ (" " : String).data, isPyLineBreak x = false) c h4
      · exact hs _ (List.mem_cons_self _ _) c h5
      · exact absurd h6 (by simp)
    · exact ih (k + 1) (fun e he => hn e (List.mem_cons_of_mem _ he))
        (fun e he => hs e (List.mem_cons_of_mem _ he)) d h

theorem progress_no_break (c t : Nat) :
    ∀ x ∈ ("Progress: " ++ Nat.repr c ++ "/" ++ Nat.repr t ++ " steps completed").data,
      isPyLineBreak x = false := by
  intro x h
  simp only [String.data_append, List.mem_append] at h
  rcases h with (((h | h) | h) | h) | h
  · exact (by decide : ∀ y ∈ ("Progress: " : String).data, isPyLineBreak y = false) x h
  · exact repr_no_break c x h
  · exact (by decide : ∀ y ∈ ("/" : String).data, isPyLineBreak y = false) x h
  · exact repr_no_break t x h
  · exact (by decide : ∀ y ∈ (" steps completed" : String).data, isPyLineBreak y = false) x h

theorem progress_no_bracket (c t : Nat) :
    '[' ∉ ("Progress: " ++ Nat.repr c ++ "/" ++ Nat.repr t ++ " steps completed").data := by
  intro h
  simp only [String.data_append, List.mem_append] at h
  rcases h with (((h | h) | h) | h) | h
  · exact absurd h (by decide)
  · exact repr_no_bracket c h
  · exact absurd h (by decide)
  · exact repr_no_bracket t h
  · exact absurd h (by decide)

theorem progress_data_cons (c t : Nat) :
    ("\nProgress: " ++ Nat.repr c ++ "/" ++ Nat.repr t ++ " steps completed").data =
      '\n' :: ("Progress: " ++ Nat.repr c ++ "/" ++ Nat.repr t ++ " steps completed").data := by
  simp [String.data_append]

theorem progress_splitKeep (c t : Nat) :
    splitKeep ("\nProgress: " ++ Nat.repr c ++ "/" ++ Nat.repr t ++ " steps completed").data =
      [[], ("Progress: " ++ Nat.repr c ++ "/" ++ Nat.repr t ++ " steps completed").data] := by
  rw [progress_data_cons, splitKeep_cons_break '\n' _ (by decide) (by decide),
    splitKeep_no_break _ (progress_no_break c t)]

theorem progress_no_cr (c t : Nat) :
    '\r' ∉ ("\nProgress: " ++ Nat.repr c ++ "/" ++ Nat.repr t ++ " steps completed").data := by
  rw [progress_data_cons]
  intro h
  rcases List.mem_cons.mp h with h | h
  · exact absurd h (by decide)
  · exact no_break_no_cr _ (progress_no_break c t) h

theorem format_plan_lines (p : Plan)
    (h3 : ∀ n ∈ p.step_notes, n = "")
    (h4a : ∀ c ∈ p.plan_id.data, isPyLineBreak c = false)
    (h4b : ∀ c ∈ p.title.data, isPyLineBreak c = false)
    (h5n : ∀ s ∈ p.steps, ∀ c ∈ s.data, isPyLineBreak c = false) :
    pySplitLines (format_plan p).data =
      ("Plan: " ++ p.plan_id ++ " - " ++ p.title).data :: [] :: "Steps:".data ::
        ((formatSteps 0 (p.steps.zip (p.step_statuses.zip p.step_notes))).map String.data ++
          [[], ("Progress: " ++
            Nat.repr ((p.step_statuses.filter (fun s => s == "completed")).length) ++ "/" ++
            Nat.repr p.steps.length ++ " steps completed").data]) := by
  have hzipnotes : ∀ e ∈ p.steps.zip (p.step_statuses.zip p.step_notes), e.2.2 = "" := by
    intro e he
    obtain ⟨s, st, n⟩ := e
    exact h3 n (List.of_mem_zip (List.of_mem_zip he).2).2
  have hzipnl : ∀ e ∈ p.steps.zip (p.step_statuses.zip p.step_notes),
      ∀ c ∈ e.1.data, isPyLineBreak c = false := by
    intro e he
    obtain ⟨s, st, n⟩ := e
    exact h5n s (List.of_mem_zip he).1
  have hjoin : (format_plan p).data =
      charJoin ((("Plan: " ++ p.plan_id ++ " - " ++ p.title) :: "\nSteps:" ::
        (formatSteps 0 (p.steps.zip (p.step_statuses.zip p.step_notes)) ++
          ["\nProgress: " ++
            Nat.repr ((p.step_statuses.filter (fun s => s == "completed")).length) ++ "/" ++
            Nat.repr p.steps.length ++ " steps completed"])).map String.data) :=
    pyJoin_data _
  have hsingle : ∀ e ∈ (formatSteps 0 (p.steps.zip (p.step_statuses.zip p.step_notes))).map
      String.data, splitKeep e = [e] := by
    intro e he
    exact splitKeep_no_break e
      (formatSteps_data_no_break _ 0 hzipnotes hzipnl e he)
  have hxcr : '\r' ∉ ("Plan: " ++ p.plan_id ++ " - " ++ p.title).data :=
    no_break_no_cr _ (header_no_break p h4a h4b)
  have hlscr : ∀ e ∈ ("\nSteps:" : String).data ::
      ((formatSteps 0 (p.steps.zip (p.step_statuses.zip p.step_notes))).map String.data ++
        (["\nProgress: " ++
          Nat.repr ((p.step_statuses.filter (fun s => s == "completed")).length) ++ "/" ++
          Nat.repr p.steps.length ++ " steps completed"]).map String.data), '\r' ∉ e := by
    intro e he
    rcases List.mem_cons.mp he with h | h
    · subst h
      decide
    · rcases List.mem_append.mp h with h | h
      · exact no_break_no_cr e (formatSteps_data_no_break _ 0 hzipnotes hzipnl e h)
      · rcases List.mem_cons.mp h with h | h
        · subst h
          exact progress_no_cr _ _
        · exact absurd h (by simp)
  have hsplit : splitKeep (format_plan p).data =
      ("Plan: " ++ p.plan_id ++ " - " ++ p.title).data :: [] :: "Steps:".data ::
        ((formatSteps 0 (p.steps.zip (p.step_statuses.zip p.step_notes))).map String.data ++
          [[], ("Progress: " ++
            Nat.repr ((p.step_statuses.filter (fun s => s == "completed")).length) ++ "/" ++
            Nat.repr p.steps.length ++ " steps completed").data]) := by
    rw [hjoin]
    rw [List.map_cons, List.map_cons, List.map_append]
    rw [splitKeep_charJoin _ _ hxcr hlscr]
    simp only [List.map_cons, List.map_append, List.flatten_cons, List.flatten_append,
      List.map_nil, List.flatten_nil]
    rw [splitKeep_no_break _ (header_no_break p h4a h4b)]
    rw [show splitKeep ("\nSteps:").data = [[], "Steps:".data] from by decide]
    rw [flatten_map_singleton _ hsingle]
    rw [progress_splitKeep]
    simp
  unfold pySplitLines
  rw [hsplit]
  have hlast : (("Plan: " ++ p.plan_id ++ " - " ++ p.title).data :: [] :: "Steps:".data ::
      ((formatSteps 0 (p.steps.zip (p.step_statuses.zip p.step_notes))).map String.data ++
        [[], ("Progress: " ++
          Nat.repr ((p.step_statuses.filter (fun s => s == "completed")).length) ++ "/" ++
          Nat.repr p.steps.length ++ " steps completed").data])).getLast? =
      some ("Progress: " ++
        Nat.repr ((p.step_statuses.filter (fun s => s == "completed")).length) ++ "/" ++
        Nat.repr p.steps.length ++ " steps completed").data := by
    rw [show ("Plan: " ++ p.plan_id ++ " - " ++ p.title).data :: [] :: "Steps:".data ::
        ((formatSteps 0 (p.steps.zip (p.step_statuses.zip p.step_notes))).map String.data ++
          [[], ("Progress: " ++
            Nat.repr ((p.step_statuses.filter (fun s => s == "completed")).length) ++ "/" ++
            Nat.repr p.steps.length ++ " steps completed").data]) =
        (("Plan: " ++ p.plan_id ++ " - " ++ p.title).data :: [] :: "Steps:".data ::
          ((formatSteps 0 (p.steps.zip (p.step_statuses.zip p.step_notes))).map String.data ++
            [[]])) ++
          [("Progress: " ++
            Nat.repr ((p.step_statuses.filter (fun s => s == "completed")).length) ++ "/" ++
            Nat.repr p.steps.length ++ " steps completed").data] from by simp]
    exact List.getLast?_concat _
  rw [hlast]
  have hcond : ¬ (some ("Progress: " ++
      Nat.repr ((p.step_statuses.filter (fun s => s == "completed")).length) ++ "/" ++
      Nat.repr p.steps.length ++ " steps completed").data = some ([] : List Char)) := by
    intro hcontra
    have hne : ("Progress: " ++
        Nat.repr ((p.step_statuses.filter (fun s => s == "completed")).length) ++ "/" ++
        Nat.repr p.steps.length ++ " steps completed").data ≠ [] := by
      simp [String.data_append]
    exact hne (Option.some.inj hcontra)
  rw [if_neg hcond]

theorem pyStrip_head (c : Char) (l : List Char) (hc : isPySpace c = false) :
    ∃ t, pyStrip (c :: l) = c :: t := by
  unfold pyStrip
  rw [List.dropWhile_cons, if_neg (by rw [hc]; simp)]
  rw [List.reverse_cons, List.dropWhile_append]
  by_cases he : (List.dropWhile isPySpace l.reverse).isEmpty = true
  · rw [if_pos he]
    refine ⟨[], ?_⟩
    rw [show List.dropWhile isPySpace [c] = [c] from by
      rw [List.dropWhile_cons, if_neg (by rw [hc]; simp)]]
    rfl
  · rw [if_neg he]
    refine ⟨(List.dropWhile isPySpace l.reverse).reverse, ?_⟩
    simp

/-- C3 (amended): on every plan state whose status and notes lists are as
long as the steps list, whose notes are all empty, and whose plan id, title
and step texts contain no line-boundary character of `str.splitlines` — with
no `'['` in any step text — the text-based and the structured step locators
return the same result. -/
theorem locators_agree (p : Plan)
    (h1 : p.step_statuses.length = p.steps.length)
    (h2 : p.step_notes.length = p.steps.length)
    (h3 : ∀ n ∈ p.step_notes, n = "")
    (h4a : ∀ c ∈ p.plan_id.data, isPyLineBreak c = false)
    (h4b : ∀ c ∈ p.title.data, isPyLineBreak c = false)
    (h5n : ∀ s ∈ p.steps, ∀ c ∈ s.data, isPyLineBreak c = false)
    (h5b : ∀ s ∈ p.steps, '[' ∉ s.data) :
    text_step_index (format_plan p) = structured_step_index p := by
  have hzipnotes : ∀ e ∈ p.steps.zip (p.step_statuses.zip p.step_notes), e.2.2 = "" := by
    intro e he
    obtain ⟨s, st, n⟩ := e
    exact h3 n (List.of_mem_zip (List.of_mem_zip he).2).2
  have hzipbr : ∀ e ∈ p.steps.zip (p.step_statuses.zip p.step_notes), '[' ∉ e.1.data := by
    intro e he
    obtain ⟨s, st, n⟩ := e
    exact h5b s (List.of_mem_zip he).1
  have htail : ∀ t ∈ [([] : List Char),
      ("Progress: " ++
        Nat.repr ((p.step_statuses.filter (fun s => s == "completed")).length) ++ "/" ++
        Nat.repr p.steps.length ++ " steps completed").data], markerPred t = false := by
    intro t ht
    rcases List.mem_cons.mp ht with h | h
    · subst h; rfl
    · rcases List.mem_cons.mp h with h | h
      · subst h
        unfold markerPred
        rw [show ("[ ]" : String).data = '[' :: [' ', ']'] from rfl,
          show ("[→]" : String).data = '[' :: ['→', ']'] from rfl]
        rw [containsSub_no_bracket _ _ (progress_no_bracket _ _),
          containsSub_no_bracket _ _ (progress_no_bracket _ _)]
        rfl
      · exact absurd h (by simp)
  have hp1 : ((fun line => pyStrip line == "Steps:".data)
      ("Plan: " ++ p.plan_id ++ " - " ++ p.title).data) = false := by
    have hex : ∃ z, ("Plan: " ++ p.plan_id ++ " - " ++ p.title).data = 'P' :: z := by
      simp only [String.data_append]
      simp
    obtain ⟨z, hz⟩ := hex
    obtain ⟨t, ht⟩ := pyStrip_head 'P' z (by decide)
    show (pyStrip ("Plan: " ++ p.plan_id ++ " - " ++ p.title).data == "Steps:".data) = false
    rw [hz, ht, beq_eq_false_iff_ne]
    intro hcontra
    rw [show ("Steps:" : String).data = 'S' :: ['t', 'e', 'p', 's', ':'] from rfl] at hcontra
    injection hcontra with hPS _
    exact absurd hPS (by decide)
  unfold text_step_index
  rw [format_plan_lines p h3 h4a h4b h5n]
  have hanchor : findIdxOpt (fun line => pyStrip line == "Steps:".data)
      (("Plan: " ++ p.plan_id ++ " - " ++ p.title).data :: [] :: "Steps:".data ::
        ((formatSteps 0 (p.steps.zip (p.step_statuses.zip p.step_notes))).map String.data ++
          [[], ("Progress: " ++
            Nat.repr ((p.step_statuses.filter (fun s => s == "completed")).length) ++ "/" ++
            Nat.repr p.steps.length ++ " steps completed").data])) = some 2 := by
    rw [findIdxOpt_cons]
    simp only [hp1]
    rw [if_neg (by simp)]
    rw [findIdxOpt_cons]
    rw [if_neg (by decide)]
    rw [findIdxOpt_cons]
    rw [if_pos (by decide)]
    rfl
  rw [hanchor]
  show findIdxOpt markerPred
      ((formatSteps 0 (p.steps.zip (p.step_statuses.zip p.step_notes))).map String.data ++
        [[], ("Progress: " ++
          Nat.repr ((p.step_statuses.filter (fun s => s == "completed")).length) ++ "/" ++
          Nat.repr p.steps.length ++ " steps completed").data]) =
    structured_step_index p
  rw [scan_formatSteps _ 0 _ htail hzipnotes hzipbr]
  unfold structured_step_index
  rw [structuredGo_eq_trip p.steps p.step_statuses p.step_notes 0 p.step_statuses
    (by rw [List.drop_zero]) h1 h2]
  cases h : firstActiveTrip (p.steps.zip (p.step_statuses.zip p.step_notes)) with
  | none => rfl
  | some j =>
    show some j = some (0 + j)
    rw [Nat.zero_add]

/-- C3 amended witness: a plan with one completed and one in-progress step,
no notes — both locators return index 1. -/
theorem locators_agree_witness :
    text_step_index (format_plan
      (Plan.mk "p1" "T" ["a", "b"] ["completed", "in_progress"] ["", ""])) =
    structured_step_index
      (Plan.mk "p1" "T" ["a", "b"] ["completed", "in_progress"] ["", ""]) :=
  locators_agree (Plan.mk "p1" "T" ["a", "b"] ["completed", "in_progress"] ["", ""])
    (by decide) (by decide) (by decide) (by decide) (by decide) (by decide) (by decide)

end OpenManus
